import Mathlib

/-!
# The cy8mrln (Palm Pre) touchscreen plugin of tslib

A shallow embedding of `plugins/cy8mrln-palmpre.c`: the reference tracker
(`cy8mrln_palmpre_update_references`), the peak scan and the noise gate of
`cy8mrln_palmpre_read`, the sub-cell interpolator
(`cy8mrln_palmpre_interpolate`), the last-contact cache and the configuration
setters.

Conventions of the embedding.
* A `uint16_t [H_FIELDS * V_FIELDS]` array is a `List Nat`; that it has 77
  cells below `2 ^ 16` is the predicate `is_grid`.  A store into a
  `uint16_t` object reduces modulo `2 ^ 16` (`to_uint16`).
* `int` objects are `Int`; loop counters, which only take the values of
  their `for` range, are `Nat`.
* The system calls are inputs of the call: the value returned by `read(2)`
  together with the frame it left in the local buffer, and the clock value
  stored by `gettimeofday`.
* The outcome of a device-control request is an input as well: the function
  `ioctl` gives the value that the call returns.
* `float` and `double` arithmetic is exact rational arithmetic followed by
  rounding to 24 resp. 53 significant bits (`to_float`, `to_double`), as IEEE
  754 prescribes for every operation evaluated in the type of its operands.
* Undefined behaviour of the C program (a store outside the caller's sample
  array, a division by zero in the interpolator) is the result `none`.
-/

namespace Cy8mrln

/-! ## Constants -/

def SCREEN_WIDTH : Int := 319
def SCREEN_HEIGHT : Int := 527
def H_FIELDS : Nat := 7
def V_FIELDS : Nat := 11

/-- A `uint16_t [H_FIELDS * V_FIELDS]` object: 77 cells, each below `2 ^ 16`. -/
def is_grid (g : List Nat) : Prop :=
  g.length = H_FIELDS * V_FIELDS ∧ ∀ i, i < H_FIELDS * V_FIELDS → g.getD i 0 < 65536

/-- Conversion of an `int` value to `uint16_t` (reduction modulo `2 ^ 16`). -/
def to_uint16 (v : Int) : Nat := (v % 65536).toNat

/-! ## Reference tracker -/

/-- Body of the inner loop of `cy8mrln_palmpre_update_references` for the
cell with index `i = y * H_FIELDS + x`; the state is the pair
`(references, field)`. -/
def update_cell (st : List Nat × List Nat) (i : Nat) : List Nat × List Nat :=
  let references := st.1
  let field := st.2
  if field.getD i 0 > references.getD i 0 then
    let references := references.set i (field.getD i 0)
    let field := field.set i 0
    (references, field)
  else
    let field := field.set i
      (to_uint16 ((references.getD i 0 : Int) - (field.getD i 0 : Int)))
    (references, field)

/-- The function `cy8mrln_palmpre_update_references`: both arrays are updated
in place, so the result is the pair of the new `references` and the new
`field` (the deltas). -/
def cy8mrln_palmpre_update_references (references field : List Nat) :
    List Nat × List Nat :=
  (List.range V_FIELDS).foldl
    (fun st y =>
      (List.range H_FIELDS).foldl (fun st x => update_cell st (y * H_FIELDS + x)) st)
    (references, field)

/-! ## Peak scan -/

/-- The variables `max_x`, `max_y`, `max_value` of `cy8mrln_palmpre_read`. -/
structure peak where
  max_x : Nat
  max_y : Nat
  max_value : Int
deriving DecidableEq, Repr

/-- Body of the inner loop of the peak scan in `cy8mrln_palmpre_read`. -/
def scan_cell (field : List Nat) (p : peak) (y x : Nat) : peak :=
  let tmp_value := field.getD (y * H_FIELDS + x) 0
  if (tmp_value : Int) > p.max_value then
    { max_x := x, max_y := y, max_value := (tmp_value : Int) }
  else
    p

/-- The peak scan of `cy8mrln_palmpre_read`: `max_x = max_y = max_value = 0`,
then the two nested `for` loops over `y` and `x`. -/
def peak_scan (field : List Nat) : peak :=
  (List.range V_FIELDS).foldl
    (fun p y => (List.range H_FIELDS).foldl (fun p x => scan_cell field p y x) p)
    { max_x := 0, max_y := 0, max_value := 0 }

/-! ## Interpolator -/

/-- Conversion of a real value to `int`: truncation towards zero. -/
def trunc (q : Rat) : Int := Int.tdiv q.num (q.den : Int)

/-! ### Binary floating-point rounding

A `float` or `double` value is the rational number it stands for; an
operation on floating-point operands is the exact operation followed by the
rounding of its type (round to nearest, ties to even, every operation
evaluated in the type of its operands).  The exponent range of the formats is
not modelled: the magnitudes that the interpolator computes from 16-bit cells
lie between `2 ^ -41` and `2 ^ 23`, inside the normal range of both formats.
A conversion of an integer to `float` or `double` is exact for every value
that occurs (all are below `2 ^ 24`); it is written for the cells of the grid
and left out for the constants and the nominal positions. -/

/-- The power `2 ^ e` for an integer exponent. -/
def pow2 (e : Int) : Rat :=
  if 0 ≤ e then ((2 ^ e.toNat : Nat) : Rat) else 1 / ((2 ^ (-e).toNat : Nat) : Rat)

/-- The number of binary digits of `n` (0 for `n = 0`), found by halving at
most `fuel` times. -/
def bit_length_fuel : Nat → Nat → Nat
  | 0, _ => 0
  | fuel + 1, n => if n = 0 then 0 else bit_length_fuel fuel (n / 2) + 1

/-- The number of binary digits of `n`. -/
def bit_length (n : Nat) : Nat := bit_length_fuel n n

/-- For a positive rational `q`, the integer `e` with `2 ^ e ≤ q < 2 ^ (e + 1)`. -/
def binary_exponent (q : Rat) : Int :=
  let d : Int := (bit_length q.num.toNat : Int) - (bit_length q.den : Int)
  if pow2 d ≤ q then d else d - 1

/-- Rounding of a rational to the nearest integer, a tie going to the even
one. -/
def round_half_even (m : Rat) : Int :=
  let f : Int := m.num / (m.den : Int)
  if m - (f : Rat) < 1 / 2 then f
  else if 1 / 2 < m - (f : Rat) then f + 1
  else if f % 2 = 0 then f else f + 1

/-- Rounding of a positive rational to the nearest binary floating-point
number with `prec` significant bits, ties to even: the rational is scaled by a
power of two into the range of the `prec`-bit integers, rounded to an integer,
and scaled back. -/
def round_pos (prec : Nat) (q : Rat) : Rat :=
  let e := binary_exponent q - ((prec : Int) - 1)
  (round_half_even (q / pow2 e) : Rat) * pow2 e

/-- Rounding to the nearest binary floating-point number with `prec`
significant bits, ties to even. -/
def round_to (prec : Nat) (q : Rat) : Rat :=
  if q = 0 then 0
  else if 0 < q then round_pos prec q
  else -(round_pos prec (-q))

/-- Rounding to `float` (IEEE 754 binary32, 24 significant bits). -/
def to_float (q : Rat) : Rat := round_to 24 q

/-- Rounding to `double` (IEEE 754 binary64, 53 significant bits). -/
def to_double (q : Rat) : Rat := round_to 53 q

/-- The C expression `0.5 * ((float) n / p)` stored in a `float`, as for
`f12`: both cells are converted to `float`, the division is a `float`
division, the product with the `double` constant 0.5 is a `double` product,
and the store rounds to `float`. -/
def half_ratio_float (n p : Nat) : Rat :=
  to_float (to_double ((1 / 2 : Rat) * to_float (to_float (n : Rat) / to_float (p : Rat))))

/-- The C expression `0.5 * (float) n / p` stored in a `float`, as for `f32`,
`f21` and `f23`: the cell `n` is converted to `float`, the product with the
`double` constant 0.5 and the division by the cell `p`, converted to `double`,
are `double` operations, and the store rounds to `float`. -/
def half_ratio_double (n p : Nat) : Rat :=
  to_float (to_double (to_double ((1 / 2 : Rat) * to_float (n : Rat)) / to_double (p : Rat)))

/-- The C statement `f = f * 2.0` on a `float`: a `double` product stored in a
`float`. -/
def doubled (f : Rat) : Rat := to_float (to_double (f * 2))

/-- What makes a call of `cy8mrln_palmpre_interpolate` defined: every cell it
reads (the peak and those of its four neighbours that are not cut off by a
grid edge) lies inside `field`, and the divisor `field[y * H_FIELDS + x]` is
not zero. -/
def interpolate_defined (field : List Nat) (x y : Nat) : Prop :=
  y * H_FIELDS + x < field.length ∧
  field.getD (y * H_FIELDS + x) 0 ≠ 0 ∧
  (y ≠ 0 → (y - 1) * H_FIELDS + x < field.length) ∧
  (y ≠ V_FIELDS - 1 → (y + 1) * H_FIELDS + x < field.length) ∧
  (x ≠ H_FIELDS - 1 → y * H_FIELDS + x + 1 < field.length) ∧
  (x ≠ 0 → y * H_FIELDS + x - 1 < field.length)

instance (field : List Nat) (x y : Nat) : Decidable (interpolate_defined field x y) := by
  unfold interpolate_defined
  exact inferInstance

/-- The function `cy8mrln_palmpre_interpolate`, in binary floating-point
arithmetic as in the source: `f12`, `f21`, `f23` and `f32` are `float`
objects, the edge corrections with the constant `2.0` are `double`
operations, and the two final sums are `float` operations whose result is
truncated to `int`.  The result is the pair `(out->x, out->y)`.  A read
outside `field` and a division by `field[y * H_FIELDS + x] = 0` are
undefined: the result is then `none`. -/
def cy8mrln_palmpre_interpolate (field : List Nat) (x y : Nat) : Option (Int × Int) :=
  if interpolate_defined field x y then
    let posx : Int := SCREEN_WIDTH - SCREEN_WIDTH / H_FIELDS * x
    let posy : Int := SCREEN_HEIGHT / V_FIELDS * y
    let dx : Int := SCREEN_WIDTH / H_FIELDS
    let dy : Int := SCREEN_HEIGHT / V_FIELDS
    let f12 : Rat :=
      if y = 0 then 0
      else half_ratio_float (field.getD ((y - 1) * H_FIELDS + x) 0)
             (field.getD (y * H_FIELDS + x) 0)
    let f32 : Rat :=
      if y = V_FIELDS - 1 then 0
      else half_ratio_double (field.getD ((y + 1) * H_FIELDS + x) 0)
             (field.getD (y * H_FIELDS + x) 0)
    let f21 : Rat :=
      if x = H_FIELDS - 1 then 0
      else half_ratio_double (field.getD (y * H_FIELDS + x + 1) 0)
             (field.getD (y * H_FIELDS + x) 0)
    let f23 : Rat :=
      if x = 0 then 0
      else half_ratio_double (field.getD (y * H_FIELDS + x - 1) 0)
             (field.getD (y * H_FIELDS + x) 0)
    let xs : Int × Rat × Rat :=
      if x = 0 then
        (trunc (to_double ((posx : Rat) + to_double ((dx : Rat) / 2))), doubled f21, f23)
      else if x = H_FIELDS - 1 then
        (trunc (to_double ((posx : Rat) - to_double ((dx : Rat) / 2))), f21, doubled f23)
      else (posx, f21, f23)
    let posx := xs.1
    let f21 := xs.2.1
    let f23 := xs.2.2
    let ys : Int × Rat × Rat :=
      if y = 0 then
        (trunc (to_double ((posy : Rat) - to_double ((dy : Rat) / 2))), doubled f32, f12)
      else if y = V_FIELDS - 1 then
        (trunc (to_double ((posy : Rat) + to_double ((dy : Rat) / 2))), f32, doubled f12)
      else (posy, f32, f12)
    let posy := ys.1
    let f32 := ys.2.1
    let f12 := ys.2.2
    some (trunc (to_float (to_float ((posx : Rat) + to_float (to_float (f23 - f21) * (dx : Rat)))
                   - ((dx / 2 : Int) : Rat))),
          trunc (to_float (to_float ((posy : Rat) + to_float (to_float (f32 - f12) * (dy : Rat)))
                   + ((dy / 2 : Int) : Rat))))
  else
    none

/-! ## Plugin state -/

/-- Modelled from the spec: `struct ts_sample` is declared in `tslib.h`, which
is not part of the sources; a contact sample is `(x, y, pressure, timestamp)`.
The timestamp is the clock reading stored by `gettimeofday`. -/
structure ts_sample where
  x : Int
  y : Int
  pressure : Int
  tv : Nat
deriving DecidableEq, Repr

/-- A sample after `memset (p, 0, sizeof (*p))`. -/
def zero_sample : ts_sample := { x := 0, y := 0, pressure := 0, tv := 0 }

/-- The driver part of `struct tslib_cy8mrln_palmpre`.  The pointer
`last_valid_samples` is `none` for `NULL` and otherwise the contents of the
allocated block, one list element per `struct ts_sample` of its size. -/
structure tslib_cy8mrln_palmpre where
  references : List Nat
  scanrate : Int
  verbose : Int
  wot_threshold : Int
  sleepmode : Int
  wot_scanrate : Int
  timestamp_mode : Int
  ts_pressure : Int
  noise : Int
  last_n_valid_samples : Int
  last_valid_samples : Option (List ts_sample)
deriving DecidableEq, Repr

/-- What one call of `cy8mrln_palmpre_read` receives from its caller and from
the system: the size `nr` of the array `samp` (not negative), the value `ret`
returned by `read(2)`, the contents `field` of `cy8mrln_evt.field` after that call, and
the time `now` that `gettimeofday` would store. -/
structure read_call where
  nr : Nat
  ret : Int
  field : List Nat
  now : Nat
deriving DecidableEq, Repr

/-- Effect of one call of `cy8mrln_palmpre_read`: the plugin state afterwards,
the caller's array `samp` afterwards, and the returned value. -/
structure read_result where
  info : tslib_cy8mrln_palmpre
  samp : List ts_sample
  ret : Int
deriving DecidableEq, Repr

/-- The function `realloc (block, sizeof (struct ts_sample) * n)`: the block
keeps its contents up to the smaller of the two sizes. -/
def realloc_samples (block : List ts_sample) (n : Nat) : List ts_sample :=
  block.take n ++ List.replicate (n - block.length) zero_sample

/-- The function `memcpy (dst, src, sizeof (struct ts_sample) * n)`; copying
more than either block holds is undefined. -/
def memcpy_samples (dst src : List ts_sample) (n : Nat) : Option (List ts_sample) :=
  if n ≤ dst.length ∧ n ≤ src.length then some (src.take n ++ dst.drop n) else none

/-- The branch of `cy8mrln_palmpre_read` taken when the peak exceeds the noise
threshold: interpolate into `samp[0]`, set its pressure and time, and copy it
into the block `last_valid_samples`, which is allocated when it is `NULL` and
resized when `last_n_valid_samples` differs from the number of samples.
Allocation is assumed to succeed. -/
def read_contact (info : tslib_cy8mrln_palmpre) (field : List Nat) (pk : peak)
    (samp : List ts_sample) (now : Nat) : Option read_result :=
  match cy8mrln_palmpre_interpolate field pk.max_x pk.max_y with
  | none => none
  | some (px, py) =>
    match samp with
    | [] => none
    | s0 :: rest =>
      let samp := { s0 with x := px, y := py, pressure := info.ts_pressure, tv := now } :: rest
      let valid_samples : Nat := 0 + 1
      let block :=
        match info.last_valid_samples with
        | none => List.replicate valid_samples zero_sample
        | some b =>
          if info.last_n_valid_samples ≠ (valid_samples : Int) then
            realloc_samples b valid_samples
          else b
      match memcpy_samples block samp valid_samples with
      | none => none
      | some block =>
        some { info := { info with last_valid_samples := some block
                                   last_n_valid_samples := (valid_samples : Int) }
               samp := samp
               ret := (valid_samples : Int) }

/-- The branch of `cy8mrln_palmpre_read` taken when the peak does not exceed
the noise threshold: when `last_valid_samples` is not `NULL`, its
`last_n_valid_samples` samples are copied into `samp`, their pressure is set
to 0, and the block is freed. -/
def read_release (info : tslib_cy8mrln_palmpre) (samp : List ts_sample) :
    Option read_result :=
  match info.last_valid_samples with
  | some b =>
    let valid_samples := info.last_n_valid_samples
    if valid_samples < 0 then none
    else
      match memcpy_samples samp b valid_samples.toNat with
      | none => none
      | some samp =>
        let samp := (samp.take valid_samples.toNat).map (fun s => { s with pressure := 0 })
                      ++ samp.drop valid_samples.toNat
        some { info := { info with last_n_valid_samples := 0
                                   last_valid_samples := none }
               samp := samp
               ret := valid_samples }
  | none => some { info := info, samp := samp, ret := 0 }

/-- The function `cy8mrln_palmpre_read`. -/
def cy8mrln_palmpre_read (info : tslib_cy8mrln_palmpre) (c : read_call) :
    Option read_result :=
  -- memset (p, 0, nr * sizeof (*p))
  let samp := List.replicate c.nr zero_sample
  if c.ret > 0 then
    let updated := cy8mrln_palmpre_update_references info.references c.field
    let info := { info with references := updated.1 }
    let field := updated.2
    let pk := peak_scan field
    if pk.max_value > info.noise then
      read_contact info field pk samp c.now
    else
      read_release info samp
  else
    some { info := info, samp := samp, ret := -1 }

/-- The state returned by `cy8mrln_palmpre_mod_init`: `last_valid_samples` is
`NULL` and `last_n_valid_samples` is 0; the configuration fields are those
left by the setters and by the option parser, which write no other field
(`configured`); `references` is a copy of the field of the first frame that
`read(2)` delivers (`input_field`). -/
def cy8mrln_palmpre_mod_init (configured : tslib_cy8mrln_palmpre) (input_field : List Nat) :
    tslib_cy8mrln_palmpre :=
  { configured with
      last_valid_samples := none
      last_n_valid_samples := 0
      references := input_field }

/-- A sequence of calls of `cy8mrln_palmpre_read`, each on the state left by
the one before; the result lists the outcome of every call. -/
def read_calls : tslib_cy8mrln_palmpre → List read_call → Option (List read_result)
  | _, [] => some []
  | info, c :: cs =>
    match cy8mrln_palmpre_read info c with
    | none => none
    | some r =>
      match read_calls r.info cs with
      | none => none
      | some rs => some (r :: rs)

/-- State **Idle** of the contact state holder: no retained contact. -/
def is_idle (info : tslib_cy8mrln_palmpre) : Prop :=
  info.last_valid_samples = none ∧ info.last_n_valid_samples = 0

/-- State **Active** of the contact state holder: one retained contact. -/
def is_active (info : tslib_cy8mrln_palmpre) : Prop :=
  (∃ s, info.last_valid_samples = some [s]) ∧ info.last_n_valid_samples = 1

instance (g : List Nat) : Decidable (is_grid g) := by
  unfold is_grid
  exact inferInstance

/-! ## Configuration setters -/

/-- Modelled from the spec: the request codes `CY8MRLN_IOCTL_SET_*` are macros
of `cy8mrln.h`, which is not part of the sources; each names one
device-control request. -/
inductive ioctl_request where
  | CY8MRLN_IOCTL_SET_SCANRATE
  | CY8MRLN_IOCTL_SET_VERBOSE_MODE
  | CY8MRLN_IOCTL_SET_SLEEPMODE
  | CY8MRLN_IOCTL_SET_WOT_SCANRATE
  | CY8MRLN_IOCTL_SET_WOT_THRESHOLD
  | CY8MRLN_IOCTL_SET_TIMESTAMP_MODE
deriving DecidableEq, Repr

/-- Effect of one call of a setter: the structure behind the handle
afterwards (`none` for a `NULL` handle), the returned value, and the
device-control requests issued, each with the value passed. -/
structure setter_result where
  info : Option tslib_cy8mrln_palmpre
  ret : Int
  requests : List (ioctl_request × Int)
deriving DecidableEq, Repr

/-- The pattern shared by the device-backed setters: fail when the handle
`info` or its `module.dev` (here `dev`, the file descriptor of the device or
`none` for `NULL`) is `NULL`; otherwise issue the request `req` with the
value `v` and fail when `ioctl` returns a negative value (the outcome of the
request is the input `ioctl`); otherwise store `v` with `store` and return 0. -/
def device_setter (ioctl : Int → ioctl_request → Int → Int) (req : ioctl_request)
    (store : tslib_cy8mrln_palmpre → Int → tslib_cy8mrln_palmpre)
    (info : Option tslib_cy8mrln_palmpre) (dev : Option Int) (v : Int) : setter_result :=
  match info, dev with
  | some i, some fd =>
    if ioctl fd req v < 0 then
      { info := some i, ret := -1, requests := [(req, v)] }
    else
      { info := some (store i v), ret := 0, requests := [(req, v)] }
  | _, _ => { info := info, ret := -1, requests := [] }

/-- The function `cy8mrln_palmpre_set_scanrate`. -/
def cy8mrln_palmpre_set_scanrate (ioctl : Int → ioctl_request → Int → Int)
    (info : Option tslib_cy8mrln_palmpre) (dev : Option Int) (rate : Int) : setter_result :=
  device_setter ioctl .CY8MRLN_IOCTL_SET_SCANRATE (fun i v => { i with scanrate := v })
    info dev rate

/-- The function `cy8mrln_palmpre_set_verbose`. -/
def cy8mrln_palmpre_set_verbose (ioctl : Int → ioctl_request → Int → Int)
    (info : Option tslib_cy8mrln_palmpre) (dev : Option Int) (v : Int) : setter_result :=
  device_setter ioctl .CY8MRLN_IOCTL_SET_VERBOSE_MODE (fun i v => { i with verbose := v })
    info dev v

/-- The function `cy8mrln_palmpre_set_sleepmode`. -/
def cy8mrln_palmpre_set_sleepmode (ioctl : Int → ioctl_request → Int → Int)
    (info : Option tslib_cy8mrln_palmpre) (dev : Option Int) (mode : Int) : setter_result :=
  device_setter ioctl .CY8MRLN_IOCTL_SET_SLEEPMODE (fun i v => { i with sleepmode := v })
    info dev mode

/-- The function `cy8mrln_palmpre_set_wot_scanrate`. -/
def cy8mrln_palmpre_set_wot_scanrate (ioctl : Int → ioctl_request → Int → Int)
    (info : Option tslib_cy8mrln_palmpre) (dev : Option Int) (rate : Int) : setter_result :=
  device_setter ioctl .CY8MRLN_IOCTL_SET_WOT_SCANRATE (fun i v => { i with wot_scanrate := v })
    info dev rate

/-- The function `cy8mrln_palmpre_set_wot_threshold`; the bounds
`WOT_THRESHOLD_MIN` and `WOT_THRESHOLD_MAX` are macros of `cy8mrln.h`, which
is not part of the sources, and are parameters here.  The handle is checked
first, then the range, and only then is the request issued. -/
def cy8mrln_palmpre_set_wot_threshold (WOT_THRESHOLD_MIN WOT_THRESHOLD_MAX : Int)
    (ioctl : Int → ioctl_request → Int → Int)
    (info : Option tslib_cy8mrln_palmpre) (dev : Option Int) (v : Int) : setter_result :=
  match info, dev with
  | some i, some fd =>
    if v < WOT_THRESHOLD_MIN ∨ v > WOT_THRESHOLD_MAX then
      { info := some i, ret := -1, requests := [] }
    else if ioctl fd .CY8MRLN_IOCTL_SET_WOT_THRESHOLD v < 0 then
      { info := some i, ret := -1, requests := [(.CY8MRLN_IOCTL_SET_WOT_THRESHOLD, v)] }
    else
      { info := some { i with wot_threshold := v }, ret := 0,
        requests := [(.CY8MRLN_IOCTL_SET_WOT_THRESHOLD, v)] }
  | _, _ => { info := info, ret := -1, requests := [] }

/-- The function `cy8mrln_palmpre_set_timestamp_mode`: the value is first
reduced to 0 or 1. -/
def cy8mrln_palmpre_set_timestamp_mode (ioctl : Int → ioctl_request → Int → Int)
    (info : Option tslib_cy8mrln_palmpre) (dev : Option Int) (v : Int) : setter_result :=
  let v : Int := if v ≠ 0 then 1 else 0
  device_setter ioctl .CY8MRLN_IOCTL_SET_TIMESTAMP_MODE
    (fun i v => { i with timestamp_mode := v }) info dev v

/-- The function `cy8mrln_palmpre_set_noise`: no device-control request. -/
def cy8mrln_palmpre_set_noise (info : Option tslib_cy8mrln_palmpre) (n : Int) :
    setter_result :=
  match info with
  | none => { info := none, ret := -1, requests := [] }
  | some i => { info := some { i with noise := n }, ret := 0, requests := [] }

/-- The function `cy8mrln_palmpre_set_ts_pressure`: no device-control request. -/
def cy8mrln_palmpre_set_ts_pressure (info : Option tslib_cy8mrln_palmpre) (p : Int) :
    setter_result :=
  match info with
  | none => { info := none, ret := -1, requests := [] }
  | some i => { info := some { i with ts_pressure := p }, ret := 0, requests := [] }

/-! ## Outcomes prescribed by the spec -/

/-- The contact sample of the spec for a frame read by the call `c`: the
interpolated position `pos`, the configured pressure and the current time. -/
def contact_sample (info : tslib_cy8mrln_palmpre) (c : read_call) (pos : Int × Int) :
    ts_sample :=
  { x := pos.1, y := pos.2, pressure := info.ts_pressure, tv := c.now }

/-- The outcome of the spec for a contact frame (gate true): one sample is
emitted, the last-contact cache is overwritten with a copy of it, the state is
Active; the reference grid is the updated one. -/
def contact_result (info : tslib_cy8mrln_palmpre) (c : read_call) (pos : Int × Int) :
    read_result :=
  { info := { info with
                references := (cy8mrln_palmpre_update_references info.references c.field).1
                last_valid_samples := some [contact_sample info c pos]
                last_n_valid_samples := 1 }
    samp := contact_sample info c pos :: List.replicate (c.nr - 1) zero_sample
    ret := 1 }

/-! ## Concrete data used to exercise the theorems -/

/-- A reference grid with every cell at 100. -/
def flat_grid : List Nat := List.replicate 77 100

/-- A raw frame equal to `flat_grid` except for the cell of field
`(x, y) = (3, 5)`, which reads 0: its delta against `flat_grid` is 100. -/
def touch_grid : List Nat := (List.replicate 77 100).set 38 0

/-- A plugin state in Idle with the default noise threshold 25 and the
default pressure 255, whose reference grid is `flat_grid`. -/
def idle_info : tslib_cy8mrln_palmpre :=
  { references := flat_grid, scanrate := 60, verbose := 0, wot_threshold := 22,
    sleepmode := 0, wot_scanrate := 0, timestamp_mode := 1, ts_pressure := 255, noise := 25,
    last_n_valid_samples := 0, last_valid_samples := none }

/-- The sample of a touch on field `(3, 5)` at time 7. -/
def touch_sample : ts_sample := { x := 162, y := 258, pressure := 255, tv := 7 }

/-- The state `idle_info` after the contact `touch_sample`: Active. -/
def active_info : tslib_cy8mrln_palmpre :=
  { idle_info with last_n_valid_samples := 1, last_valid_samples := some [touch_sample] }

/-- A call at time 7 that reads the frame `touch_grid`. -/
def touch_call : read_call := { nr := 1, ret := 167, field := touch_grid, now := 7 }

/-- A call at time 8 that reads the frame `flat_grid`. -/
def quiet_call : read_call := { nr := 1, ret := 167, field := flat_grid, now := 8 }

/-- A device layer that accepts every request. -/
def accepting_ioctl : Int → ioctl_request → Int → Int := fun _ _ _ => 0

/-- A device layer that rejects every request. -/
def rejecting_ioctl : Int → ioctl_request → Int → Int := fun _ _ _ => -1

/-- A call at time 9 whose `read(2)` fails. -/
def failed_call : read_call := { nr := 1, ret := -1, field := flat_grid, now := 9 }

/-- A delta grid with the peak 100 on the interior field `(3, 5)` and the
neighbours 30 (at `x - 1`), 70 (at `x + 1`), 20 (at `y - 1`) and 99 (at `y + 1`). -/
def bump_grid : List Nat :=
  ((((List.replicate 77 0).set 38 100).set 37 30).set 39 70 |>.set 31 20).set 45 99

/-- A delta grid with the peak 100 on the corner field `(0, 0)` and the
neighbours 30 (at `x + 1`) and 70 (at `y + 1`). -/
def corner_grid : List Nat :=
  (((List.replicate 77 0).set 0 100).set 1 30).set 7 70

/-- A delta grid with the peak 100 on the corner field `(6, 10)` and the
neighbours 30 (at `x - 1`) and 70 (at `y - 1`). -/
def far_corner_grid : List Nat :=
  (((List.replicate 77 0).set 76 100).set 75 30).set 69 70

/-- A delta grid with the peak 39991 on the interior field `(1, 5)` and the
neighbours 38620 (at `x - 1`) and 24401 (at `x + 1`). -/
def rounding_grid : List Nat :=
  (((List.replicate 77 0).set 36 39991).set 35 38620).set 37 24401

/-- A delta grid with the peak 65534 on the edge field `(0, 5)` and the
neighbour 23301 (at `x + 1`). -/
def left_edge_grid : List Nat :=
  ((List.replicate 77 0).set 35 65534).set 36 23301

/-- A delta grid with the peak 47 on the edge field `(3, 0)` and the neighbour
16 (at `y + 1`). -/
def top_edge_grid : List Nat :=
  ((List.replicate 77 0).set 3 47).set 10 16

/-- The delta grid of the end-to-end example: 100 on field `(3, 5)`, 0
elsewhere. -/
def single_touch_deltas : List Nat := (List.replicate 77 0).set 38 100

/-! ## Shared lemmas -/

/-- The nested loop over `y` and `x` visits the cell indices `0, 1, ..., 76`
in increasing order. -/
theorem nested_foldl_eq {σ : Type} (f : σ → Nat → σ) (s : σ) :
    (List.range V_FIELDS).foldl
      (fun st y => (List.range H_FIELDS).foldl (fun st x => f st (y * H_FIELDS + x)) st) s
    = (List.range (H_FIELDS * V_FIELDS)).foldl f s := by
  simp [V_FIELDS, H_FIELDS, List.range_succ]

/-- Reading a cell after a store into a list of the right length. -/
theorem getD_set_eq (l : List Nat) (i j v : Nat) (hi : i < l.length) :
    (l.set i v).getD j 0 = if j = i then v else l.getD j 0 := by
  by_cases h : j = i
  · subst h
    simp [List.getD_eq_getElem?_getD, List.getElem?_set, hi]
  · have h' : ¬ i = j := fun e => h e.symm
    simp [List.getD_eq_getElem?_getD, List.getElem?_set, h, h']

/-- State of the reference tracker after the first `n` cells: the visited
cells hold their new values, the others are untouched. -/
theorem update_prefix (references field : List Nat) (n : Nat)
    (hr : references.length = H_FIELDS * V_FIELDS) (hf : field.length = H_FIELDS * V_FIELDS)
    (hn : n ≤ H_FIELDS * V_FIELDS) :
    let st := (List.range n).foldl update_cell (references, field)
    st.1.length = H_FIELDS * V_FIELDS ∧ st.2.length = H_FIELDS * V_FIELDS ∧
    ∀ i,
      st.1.getD i 0 =
        (if i < n then (if field.getD i 0 > references.getD i 0 then field.getD i 0
                        else references.getD i 0)
         else references.getD i 0) ∧
      st.2.getD i 0 =
        (if i < n then (if field.getD i 0 > references.getD i 0 then 0
                        else to_uint16 ((references.getD i 0 : Int) - (field.getD i 0 : Int)))
         else field.getD i 0) := by
  induction n with
  | zero => simp [hr, hf]
  | succ n ih =>
    have ih' := ih (Nat.le_of_succ_le hn)
    simp only [List.range_succ, List.foldl_append, List.foldl_cons, List.foldl_nil]
    generalize (List.range n).foldl update_cell (references, field) = st at ih' ⊢
    obtain ⟨h1, h2, h3⟩ := ih'
    have hn1 : n < st.1.length := by omega
    have hn2 : n < st.2.length := by omega
    have e1 := (h3 n).1
    have e2 := (h3 n).2
    simp only [lt_irrefl, if_false] at e1 e2
    unfold update_cell
    simp only [e1, e2]
    by_cases hgt : field.getD n 0 > references.getD n 0
    · simp only [hgt, if_true, List.length_set, h1, h2, true_and]
      intro i
      rw [getD_set_eq _ _ _ _ hn1, getD_set_eq _ _ _ _ hn2]
      by_cases hi : i = n
      · subst hi
        simp only [if_pos hgt, if_true, Nat.lt_succ_self, and_self]
      · have := h3 i
        by_cases hlt : i < n
        · have hlt' : i < n + 1 := by omega
          simp only [hi, if_false, hlt, hlt', if_true] at this ⊢
          exact this
        · have hlt' : ¬ i < n + 1 := by omega
          simp only [hi, if_false, hlt, hlt'] at this ⊢
          exact this
    · simp only [hgt, if_false, List.length_set, h1, h2, true_and]
      intro i
      rw [getD_set_eq _ _ _ _ hn2]
      by_cases hi : i = n
      · subst hi
        simp only [if_neg hgt, if_true, Nat.lt_succ_self, e1, and_self]
      · have := h3 i
        by_cases hlt : i < n
        · have hlt' : i < n + 1 := by omega
          simp only [hi, if_false, hlt, hlt', if_true] at this ⊢
          exact this
        · have hlt' : ¬ i < n + 1 := by omega
          simp only [hi, if_false, hlt, hlt'] at this ⊢
          exact this

/-- Cell-wise description of `cy8mrln_palmpre_update_references`. -/
theorem update_references_spec (references field : List Nat)
    (hr : references.length = H_FIELDS * V_FIELDS) (hf : field.length = H_FIELDS * V_FIELDS) :
    (cy8mrln_palmpre_update_references references field).1.length = H_FIELDS * V_FIELDS ∧
    (cy8mrln_palmpre_update_references references field).2.length = H_FIELDS * V_FIELDS ∧
    ∀ i, i < H_FIELDS * V_FIELDS →
      (cy8mrln_palmpre_update_references references field).1.getD i 0 =
        (if field.getD i 0 > references.getD i 0 then field.getD i 0
         else references.getD i 0) ∧
      (cy8mrln_palmpre_update_references references field).2.getD i 0 =
        (if field.getD i 0 > references.getD i 0 then 0
         else to_uint16 ((references.getD i 0 : Int) - (field.getD i 0 : Int))) := by
  unfold cy8mrln_palmpre_update_references
  rw [nested_foldl_eq update_cell]
  obtain ⟨h1, h2, h3⟩ := update_prefix references field (H_FIELDS * V_FIELDS) hr hf le_rfl
  refine ⟨h1, h2, fun i hi => ?_⟩
  have := h3 i
  simp only [hi, if_true] at this
  exact this

/-- A difference of two `uint16_t` values that does not go below zero is
stored unchanged. -/
theorem to_uint16_sub (r f : Nat) (hr : r < 65536) (hfr : f ≤ r) :
    to_uint16 ((r : Int) - (f : Int)) = r - f := by
  unfold to_uint16
  have h : ((r : Int) - (f : Int)) = ((r - f : Nat) : Int) := by omega
  rw [h]
  have h2 : (((r - f : Nat) : Int) % 65536) = ((r - f : Nat) : Int) := by omega
  rw [h2]
  simp

/-- The peak scan visits the cells in the order of their index
`k = y * H_FIELDS + x`. -/
theorem peak_scan_eq (field : List Nat) :
    peak_scan field =
      (List.range (H_FIELDS * V_FIELDS)).foldl
        (fun p k => scan_cell field p (k / H_FIELDS) (k % H_FIELDS))
        { max_x := 0, max_y := 0, max_value := 0 } := by
  simp [peak_scan, V_FIELDS, H_FIELDS, List.range_succ]

/-- Invariant of the peak scan after the first `n` cells: `max_value` bounds
every visited cell, and either nothing positive has been seen and the peak is
still `(0, 0, 0)`, or the peak is the first visited cell holding `max_value`. -/
theorem peak_scan_prefix (field : List Nat) (n : Nat) :
    let p := (List.range n).foldl
      (fun p k => scan_cell field p (k / H_FIELDS) (k % H_FIELDS))
      { max_x := 0, max_y := 0, max_value := 0 }
    (∀ k, k < n → (field.getD k 0 : Int) ≤ p.max_value) ∧
    ((p = { max_x := 0, max_y := 0, max_value := 0 } ∧ ∀ k, k < n → field.getD k 0 = 0) ∨
     (p.max_x < H_FIELDS ∧ p.max_y * H_FIELDS + p.max_x < n ∧
      (field.getD (p.max_y * H_FIELDS + p.max_x) 0 : Int) = p.max_value ∧
      0 < p.max_value ∧
      ∀ k, k < p.max_y * H_FIELDS + p.max_x → (field.getD k 0 : Int) < p.max_value)) := by
  induction n with
  | zero => simp
  | succ n ih =>
    simp only [List.range_succ, List.foldl_append, List.foldl_cons, List.foldl_nil]
    generalize (List.range n).foldl
      (fun p k => scan_cell field p (k / H_FIELDS) (k % H_FIELDS))
      { max_x := 0, max_y := 0, max_value := 0 } = p at ih ⊢
    obtain ⟨hle, hcase⟩ := ih
    have hidx : n / H_FIELDS * H_FIELDS + n % H_FIELDS = n := by
      simp only [H_FIELDS]; omega
    have hmod : n % H_FIELDS < H_FIELDS := by simp only [H_FIELDS]; omega
    unfold scan_cell
    simp only [hidx]
    by_cases hgt : (field.getD n 0 : Int) > p.max_value
    · simp only [hgt, if_true]
      refine ⟨fun k hk => ?_, Or.inr ⟨hmod, ?_, ?_, ?_, fun k hk => ?_⟩⟩
      · by_cases hkn : k = n
        · subst hkn; exact le_rfl
        · have := hle k (by omega); omega
      · simp only [hidx]; omega
      · simp only [hidx]
      · rcases hcase with ⟨hp, _⟩ | ⟨_, _, _, hpos, _⟩
        · rw [hp] at hgt; exact hgt
        · omega
      · simp only [hidx] at hk
        have := hle k hk
        omega
    · simp only [hgt, if_false]
      refine ⟨fun k hk => ?_, ?_⟩
      · by_cases hkn : k = n
        · subst hkn; omega
        · exact hle k (by omega)
      · rcases hcase with ⟨hp, hz⟩ | ⟨h1, h2, h3, h4, h5⟩
        · refine Or.inl ⟨hp, fun k hk => ?_⟩
          by_cases hkn : k = n
          · subst hkn
            rw [hp] at hgt
            simp only [gt_iff_lt, not_lt] at hgt
            omega
          · exact hz k (by omega)
        · exact Or.inr ⟨h1, by omega, h3, h4, h5⟩

/-- Result of the whole peak scan: `max_value` bounds every cell, and either
all cells are zero and the peak is `(0, 0, 0)`, or the peak is the first cell
in scan order that holds the (positive) maximum. -/
theorem peak_scan_spec (field : List Nat) :
    (∀ k, k < H_FIELDS * V_FIELDS → (field.getD k 0 : Int) ≤ (peak_scan field).max_value) ∧
    ((peak_scan field = { max_x := 0, max_y := 0, max_value := 0 } ∧
        ∀ k, k < H_FIELDS * V_FIELDS → field.getD k 0 = 0) ∨
     ((peak_scan field).max_x < H_FIELDS ∧
      (peak_scan field).max_y * H_FIELDS + (peak_scan field).max_x < H_FIELDS * V_FIELDS ∧
      (field.getD ((peak_scan field).max_y * H_FIELDS + (peak_scan field).max_x) 0 : Int)
        = (peak_scan field).max_value ∧
      0 < (peak_scan field).max_value ∧
      ∀ k, k < (peak_scan field).max_y * H_FIELDS + (peak_scan field).max_x →
        (field.getD k 0 : Int) < (peak_scan field).max_value)) := by
  rw [peak_scan_eq]
  exact peak_scan_prefix field (H_FIELDS * V_FIELDS)

/-! ## Reference tracker: claims -/

/-- C1: `cy8mrln_palmpre_update_references` treats every cell on its own: where
the raw value exceeds the reference, the reference becomes the raw value and
the delta written into the field is 0; elsewhere the reference is unchanged
and the delta written into the field is reference minus raw. -/
theorem update_references_cellwise (references field : List Nat)
    (hr : is_grid references) (hf : is_grid field) (i : Nat) (hi : i < H_FIELDS * V_FIELDS) :
    (field.getD i 0 > references.getD i 0 →
      (cy8mrln_palmpre_update_references references field).1.getD i 0 = field.getD i 0 ∧
      (cy8mrln_palmpre_update_references references field).2.getD i 0 = 0) ∧
    (¬ field.getD i 0 > references.getD i 0 →
      (cy8mrln_palmpre_update_references references field).1.getD i 0 = references.getD i 0 ∧
      ((cy8mrln_palmpre_update_references references field).2.getD i 0 : Int)
        = (references.getD i 0 : Int) - (field.getD i 0 : Int)) := by
  obtain ⟨_, _, h⟩ := update_references_spec references field hr.1 hf.1
  obtain ⟨h1, h2⟩ := h i hi
  refine ⟨fun hgt => ?_, fun hle => ?_⟩
  · rw [h1, h2]
    simp only [if_pos hgt, and_self]
  · rw [h1, h2]
    simp only [if_neg hle, true_and]
    rw [to_uint16_sub _ _ (hr.2 i hi) (by omega)]
    omega

/-- Witness of C1 at the touched cell and at an untouched cell's neighbour. -/
theorem update_references_cellwise_witness :
    (cy8mrln_palmpre_update_references flat_grid touch_grid).1.getD 38 0 = 100 ∧
    ((cy8mrln_palmpre_update_references flat_grid touch_grid).2.getD 38 0 : Int) = 100 - 0 :=
  (update_references_cellwise flat_grid touch_grid (by decide!) (by decide!) 38 (by decide!)).2
    (by decide!)

/-- C3: feeding the same raw grid a second time, after the reference grid has
caught up with it, leaves the reference grid unchanged and gives delta 0 in
every cell whose raw value equals its reference value. -/
theorem update_references_idempotent (references field : List Nat)
    (hr : is_grid references) (hf : is_grid field) :
    (cy8mrln_palmpre_update_references
        (cy8mrln_palmpre_update_references references field).1 field).1
      = (cy8mrln_palmpre_update_references references field).1 ∧
    ∀ i, i < H_FIELDS * V_FIELDS →
      field.getD i 0 = (cy8mrln_palmpre_update_references references field).1.getD i 0 →
      (cy8mrln_palmpre_update_references
        (cy8mrln_palmpre_update_references references field).1 field).2.getD i 0 = 0 := by
  obtain ⟨l1, _, h⟩ := update_references_spec references field hr.1 hf.1
  obtain ⟨l2, _, h'⟩ := update_references_spec
    (cy8mrln_palmpre_update_references references field).1 field l1 hf.1
  constructor
  · apply List.ext_getElem (by rw [l1, l2])
    intro i hi1 hi2
    have hi : i < H_FIELDS * V_FIELDS := by omega
    have e1 := (h i hi).1
    have e2 := (h' i hi).1
    have hle : ¬ field.getD i 0 >
        (cy8mrln_palmpre_update_references references field).1.getD i 0 := by
      rw [e1]; split <;> omega
    rw [if_neg hle] at e2
    simpa [List.getD_eq_getElem?_getD, List.getElem?_eq_getElem hi1,
      List.getElem?_eq_getElem hi2] using e2
  · intro i hi heq
    rw [(h' i hi).2, ← heq]
    simp [to_uint16]

/-- Witness of C3 on a frame that lies above the reference grid in one cell. -/
theorem update_references_idempotent_witness :
    (cy8mrln_palmpre_update_references
        (cy8mrln_palmpre_update_references touch_grid flat_grid).1 flat_grid).1
      = (cy8mrln_palmpre_update_references touch_grid flat_grid).1 ∧
    (cy8mrln_palmpre_update_references
        (cy8mrln_palmpre_update_references touch_grid flat_grid).1 flat_grid).2.getD 38 0 = 0 :=
  ⟨(update_references_idempotent touch_grid flat_grid (by decide!) (by decide!)).1,
   (update_references_idempotent touch_grid flat_grid (by decide!) (by decide!)).2 38
     (by decide!) (by decide!)⟩

/-! ## Peak scan: claims -/

/-- C4: on a delta grid with a non-zero cell the peak scan ends with
`max_value` the maximum of all 77 cells, held by the cell `(max_x, max_y)`: no
cell is larger, and every cell before it in row-major order (lower `y`, then
lower `x`) is strictly smaller. -/
theorem peak_scan_first_maximum (field : List Nat)
    (hnz : ∃ k, k < H_FIELDS * V_FIELDS ∧ field.getD k 0 ≠ 0) :
    (peak_scan field).max_x < H_FIELDS ∧ (peak_scan field).max_y < V_FIELDS ∧
    (field.getD ((peak_scan field).max_y * H_FIELDS + (peak_scan field).max_x) 0 : Int)
      = (peak_scan field).max_value ∧
    (∀ x y, x < H_FIELDS → y < V_FIELDS →
      (field.getD (y * H_FIELDS + x) 0 : Int) ≤ (peak_scan field).max_value) ∧
    (∀ x y, x < H_FIELDS → y < V_FIELDS →
      (y < (peak_scan field).max_y ∨
        (y = (peak_scan field).max_y ∧ x < (peak_scan field).max_x)) →
      (field.getD (y * H_FIELDS + x) 0 : Int) < (peak_scan field).max_value) := by
  obtain ⟨hle, hcase⟩ := peak_scan_spec field
  rcases hcase with ⟨_, hz⟩ | ⟨h1, h2, h3, _, h5⟩
  · obtain ⟨k, hk, hne⟩ := hnz
    exact absurd (hz k hk) hne
  · simp only [H_FIELDS, V_FIELDS] at *
    refine ⟨h1, by omega, h3, fun x y hx hy => hle _ (by omega), fun x y hx hy hlt => ?_⟩
    apply h5
    rcases hlt with hlt | ⟨heq, hlt⟩
    · omega
    · omega

/-- Witness of C4 on the delta grid of `touch_grid` against `flat_grid`. -/
theorem peak_scan_first_maximum_witness :
    (peak_scan (cy8mrln_palmpre_update_references flat_grid touch_grid).2).max_x < H_FIELDS ∧
    (peak_scan (cy8mrln_palmpre_update_references flat_grid touch_grid).2).max_y < V_FIELDS :=
  ⟨(peak_scan_first_maximum (cy8mrln_palmpre_update_references flat_grid touch_grid).2
      ⟨38, by decide!, by decide!⟩).1,
   (peak_scan_first_maximum (cy8mrln_palmpre_update_references flat_grid touch_grid).2
      ⟨38, by decide!, by decide!⟩).2.1⟩

/-! ## The read call: shared lemmas -/

/-- A failed `read(2)`: the call returns -1 with the state untouched. -/
theorem read_failed_eq (info : tslib_cy8mrln_palmpre) (c : read_call) (h : c.ret ≤ 0) :
    cy8mrln_palmpre_read info c =
      some { info := info, samp := List.replicate c.nr zero_sample, ret := -1 } := by
  have h' : ¬ c.ret > 0 := by omega
  simp only [cy8mrln_palmpre_read, h', if_false]

/-- A frame above the noise threshold is handled by `read_contact`. -/
theorem read_contact_branch (info : tslib_cy8mrln_palmpre) (c : read_call)
    (hret : 0 < c.ret)
    (hgate : info.noise <
      (peak_scan (cy8mrln_palmpre_update_references info.references c.field).2).max_value) :
    cy8mrln_palmpre_read info c =
      read_contact
        { info with references := (cy8mrln_palmpre_update_references info.references c.field).1 }
        (cy8mrln_palmpre_update_references info.references c.field).2
        (peak_scan (cy8mrln_palmpre_update_references info.references c.field).2)
        (List.replicate c.nr zero_sample) c.now := by
  simp only [cy8mrln_palmpre_read, gt_iff_lt, hret, if_true, hgate]

/-- A frame not above the noise threshold is handled by `read_release`. -/
theorem read_noise_branch (info : tslib_cy8mrln_palmpre) (c : read_call)
    (hret : 0 < c.ret)
    (hgate : ¬ info.noise <
      (peak_scan (cy8mrln_palmpre_update_references info.references c.field).2).max_value) :
    cy8mrln_palmpre_read info c =
      read_release
        { info with references := (cy8mrln_palmpre_update_references info.references c.field).1 }
        (List.replicate c.nr zero_sample) := by
  simp only [cy8mrln_palmpre_read, gt_iff_lt, hret, if_true, hgate, if_false]

/-- Copying one sample into a block replaces its first sample. -/
theorem memcpy_samples_one (dst rest : List ts_sample) (a : ts_sample)
    (block : List ts_sample) (h : memcpy_samples dst (a :: rest) (0 + 1) = some block) :
    block = a :: dst.drop 1 := by
  unfold memcpy_samples at h
  split at h
  · simpa using h.symm
  · exact absurd h (by simp)

/-- Shape of every defined result of `read_contact`: the interpolated
position exists, `samp[0]` holds the new sample, which is also the first
sample of the cache, and the count is 1. -/
theorem read_contact_some (info : tslib_cy8mrln_palmpre) (field : List Nat) (pk : peak)
    (samp : List ts_sample) (now : Nat) (r : read_result)
    (h : read_contact info field pk samp now = some r) :
    ∃ px py s0 rest tail,
      cy8mrln_palmpre_interpolate field pk.max_x pk.max_y = some (px, py) ∧
      samp = s0 :: rest ∧
      r = { info := { info with
                        last_valid_samples :=
                          some ({ x := px, y := py, pressure := info.ts_pressure, tv := now } :: tail)
                        last_n_valid_samples := 1 }
            samp := { x := px, y := py, pressure := info.ts_pressure, tv := now } :: rest
            ret := 1 } := by
  unfold read_contact at h
  split at h
  · exact absurd h (by simp)
  · rename_i px py hint
    split at h
    · exact absurd h (by simp)
    · rename_i s0 rest
      simp only at h
      split at h
      · exact absurd h (by simp)
      · rename_i block hcp
        have hb := memcpy_samples_one _ _ _ _ hcp
        simp only [Option.some.injEq] at h
        refine ⟨px, py, s0, rest, block.tail, hint, rfl, ?_⟩
        rw [← h, hb]
        simp

/-- From the states Idle and Active, `read_contact` on a zeroed array of at
least one sample is defined exactly when the interpolation is; the cache then
holds one sample, a copy of `samp[0]`. -/
theorem read_contact_eq (info : tslib_cy8mrln_palmpre) (field : List Nat) (pk : peak)
    (nr now : Nat) (hst : is_idle info ∨ is_active info) (hnr : 0 < nr) :
    read_contact info field pk (List.replicate nr zero_sample) now =
      (cy8mrln_palmpre_interpolate field pk.max_x pk.max_y).map (fun pos =>
        { info := { info with
                      last_valid_samples :=
                        some [{ x := pos.1, y := pos.2, pressure := info.ts_pressure, tv := now }]
                      last_n_valid_samples := 1 }
          samp := { x := pos.1, y := pos.2, pressure := info.ts_pressure, tv := now }
                    :: List.replicate (nr - 1) zero_sample
          ret := 1 }) := by
  obtain ⟨m, rfl⟩ : ∃ m, nr = m + 1 := ⟨nr - 1, by omega⟩
  unfold read_contact
  cases hint : cy8mrln_palmpre_interpolate field pk.max_x pk.max_y with
  | none => simp
  | some pos =>
    obtain ⟨px, py⟩ := pos
    rcases hst with ⟨hc, hn⟩ | ⟨⟨s, hc⟩, hn⟩
    · simp [List.replicate_succ, hc, memcpy_samples]
    · simp [List.replicate_succ, hc, hn, memcpy_samples]

/-- Release from a state whose cache starts with the sample `s` and whose
count is 1: one sample is returned, `s` with pressure 0, and the cache is
cleared. -/
theorem read_release_active (info : tslib_cy8mrln_palmpre) (nr : Nat) (s : ts_sample)
    (tail : List ts_sample) (hc : info.last_valid_samples = some (s :: tail))
    (hn : info.last_n_valid_samples = 1) (hnr : 0 < nr) :
    read_release info (List.replicate nr zero_sample) =
      some { info := { info with last_n_valid_samples := 0, last_valid_samples := none }
             samp := { s with pressure := 0 } :: List.replicate (nr - 1) zero_sample
             ret := 1 } := by
  obtain ⟨m, rfl⟩ : ∃ m, nr = m + 1 := ⟨nr - 1, by omega⟩
  unfold read_release
  simp [hc, hn, memcpy_samples, List.replicate_succ]

/-- Noise in state Idle: nothing is returned and nothing changes. -/
theorem read_release_idle (info : tslib_cy8mrln_palmpre) (samp : List ts_sample)
    (hc : info.last_valid_samples = none) :
    read_release info samp = some { info := info, samp := samp, ret := 0 } := by
  unfold read_release
  simp [hc]

/-- Shape of every defined result of `read_release`: the cache is empty
afterwards; from an empty cache nothing changes and 0 is returned, otherwise
the count is reset and the former count is returned. -/
theorem read_release_some (info : tslib_cy8mrln_palmpre) (samp : List ts_sample)
    (r : read_result) (h : read_release info samp = some r) :
    r.info = { info with last_n_valid_samples := r.info.last_n_valid_samples
                         last_valid_samples := none } ∧
    (info.last_valid_samples = none →
      r.info.last_n_valid_samples = info.last_n_valid_samples ∧ r.ret = 0) ∧
    (info.last_valid_samples ≠ none →
      r.info.last_n_valid_samples = 0 ∧ r.ret = info.last_n_valid_samples) := by
  unfold read_release at h
  split at h
  · rename_i b hb
    simp only at h
    split at h
    · exact absurd h (by simp)
    · split at h
      · exact absurd h (by simp)
      · simp only [Option.some.injEq] at h
        subst h
        simp [hb]
  · rename_i hb
    simp only [Option.some.injEq] at h
    subst h
    cases info
    simp_all

/-- One step of the reference tracker never lowers a reference cell. -/
theorem update_cell_mono (st : List Nat × List Nat) (i j : Nat) :
    st.1.getD j 0 ≤ (update_cell st i).1.getD j 0 := by
  unfold update_cell
  by_cases hgt : st.2.getD i 0 > st.1.getD i 0
  · simp only [hgt, if_true]
    by_cases hi : i < st.1.length
    · rw [getD_set_eq _ _ _ _ hi]
      by_cases hj : j = i
      · subst hj
        simp only [if_true]
        omega
      · simp only [hj, if_false, le_refl]
    · rw [List.set_eq_of_length_le (by omega)]
  · simp only [hgt, if_false, le_refl]

/-- No sequence of steps of the reference tracker lowers a reference cell. -/
theorem update_foldl_mono (l : List Nat) (st : List Nat × List Nat) (j : Nat) :
    st.1.getD j 0 ≤ (l.foldl update_cell st).1.getD j 0 := by
  induction l generalizing st with
  | nil => simp
  | cons i l ih =>
    simp only [List.foldl_cons]
    exact le_trans (update_cell_mono st i j) (ih (update_cell st i))

/-- The function `cy8mrln_palmpre_update_references` never lowers a reference cell. -/
theorem update_references_mono (references field : List Nat) (j : Nat) :
    references.getD j 0 ≤ (cy8mrln_palmpre_update_references references field).1.getD j 0 := by
  unfold cy8mrln_palmpre_update_references
  rw [nested_foldl_eq update_cell]
  exact update_foldl_mono _ (references, field) j

/-- The reference grid after a defined call: the updated grid when a frame was
read, the old grid otherwise. -/
theorem read_references (info : tslib_cy8mrln_palmpre) (c : read_call) (r : read_result)
    (h : cy8mrln_palmpre_read info c = some r) :
    r.info.references =
      if 0 < c.ret then (cy8mrln_palmpre_update_references info.references c.field).1
      else info.references := by
  by_cases hret : 0 < c.ret
  · simp only [hret, if_true]
    by_cases hgate : info.noise <
        (peak_scan (cy8mrln_palmpre_update_references info.references c.field).2).max_value
    · rw [read_contact_branch info c hret hgate] at h
      obtain ⟨px, py, s0, rest, tail, _, _, hr⟩ := read_contact_some _ _ _ _ _ _ h
      rw [hr]
    · rw [read_noise_branch info c hret hgate] at h
      have := (read_release_some _ _ _ h).1
      rw [this]
  · simp only [hret, if_false]
    rw [read_failed_eq info c (by omega)] at h
    simp only [Option.some.injEq] at h
    rw [← h]

/-- The states Idle and Active do not depend on the reference grid. -/
theorem state_with_references (info : tslib_cy8mrln_palmpre) (refs : List Nat)
    (hst : is_idle info ∨ is_active info) :
    is_idle { info with references := refs } ∨ is_active { info with references := refs } :=
  hst

/-- Every defined call keeps the contact state holder in Idle or Active, and
returns -1 on a failed `read(2)` and 0 or 1 otherwise. -/
theorem read_keeps_state (info : tslib_cy8mrln_palmpre) (c : read_call) (r : read_result)
    (hst : is_idle info ∨ is_active info) (h : cy8mrln_palmpre_read info c = some r) :
    (is_idle r.info ∨ is_active r.info) ∧
    (c.ret ≤ 0 → r.ret = -1) ∧ (0 < c.ret → r.ret = 0 ∨ r.ret = 1) := by
  by_cases hret : 0 < c.ret
  · have hret' : ¬ c.ret ≤ 0 := by omega
    by_cases hgate : info.noise <
        (peak_scan (cy8mrln_palmpre_update_references info.references c.field).2).max_value
    · rw [read_contact_branch info c hret hgate] at h
      obtain ⟨px, py, s0, rest, tail, hint, hsamp, _⟩ := read_contact_some _ _ _ _ _ _ h
      have hnr : 0 < c.nr := by
        rcases Nat.eq_zero_or_pos c.nr with h0 | h0
        · rw [h0] at hsamp; simp at hsamp
        · exact h0
      have hst' := state_with_references info
        (cy8mrln_palmpre_update_references info.references c.field).1 hst
      rw [read_contact_eq _ _ _ _ _ hst' hnr, hint, Option.map_some'] at h
      have h' := Option.some.inj h
      rw [← h']
      refine ⟨Or.inr ⟨⟨_, rfl⟩, rfl⟩, fun h0 => absurd h0 hret', fun _ => Or.inr rfl⟩
    · rw [read_noise_branch info c hret hgate] at h
      obtain ⟨h1, h2, h3⟩ := read_release_some _ _ _ h
      have hnone : r.info.last_valid_samples = none := by rw [h1]
      refine ⟨Or.inl ⟨hnone, ?_⟩, fun h0 => absurd h0 hret', fun _ => ?_⟩
      · rcases hst with ⟨hc, hn⟩ | ⟨⟨s, hc⟩, hn⟩
        · rw [(h2 hc).1]; exact hn
        · exact (h3 (by simp [hc])).1
      · rcases hst with ⟨hc, hn⟩ | ⟨⟨s, hc⟩, hn⟩
        · exact Or.inl (h2 hc).2
        · right; rw [(h3 (by simp [hc])).2]; exact hn
  · rw [read_failed_eq info c (by omega)] at h
    simp only [Option.some.injEq] at h
    subst h
    exact ⟨hst, fun _ => rfl, fun h0 => absurd h0 hret⟩

/-- The interpolation is defined at every cell of a 77-cell grid whose value
is not zero. -/
theorem interpolate_is_defined (field : List Nat) (x y : Nat)
    (hlen : field.length = H_FIELDS * V_FIELDS) (hx : x < H_FIELDS) (hy : y < V_FIELDS)
    (hc : field.getD (y * H_FIELDS + x) 0 ≠ 0) :
    ∃ pos, cy8mrln_palmpre_interpolate field x y = some pos := by
  have hd : interpolate_defined field x y := by
    simp only [H_FIELDS, V_FIELDS, interpolate_defined] at *
    exact ⟨by omega, hc, fun h => by omega, fun h => by omega, fun h => by omega,
      fun h => by omega⟩
  unfold cy8mrln_palmpre_interpolate
  rw [if_pos hd]
  exact ⟨_, rfl⟩

/-- A positive peak of a 77-cell delta grid can be interpolated. -/
theorem interpolate_at_peak (field : List Nat) (hlen : field.length = H_FIELDS * V_FIELDS)
    (hpos : 0 < (peak_scan field).max_value) :
    ∃ pos, cy8mrln_palmpre_interpolate field (peak_scan field).max_x (peak_scan field).max_y
      = some pos := by
  obtain ⟨_, hcase⟩ := peak_scan_spec field
  rcases hcase with ⟨hp, _⟩ | ⟨h1, h2, h3, h4, _⟩
  · rw [hp] at hpos; exact absurd hpos (by simp)
  · apply interpolate_is_defined field _ _ hlen h1
    · simp only [H_FIELDS, V_FIELDS] at *; omega
    · intro h0
      rw [h0] at h3
      omega


/-- From Idle or Active, a frame above the noise threshold gives the contact
outcome of the spec at the interpolated position, and is undefined exactly
when the interpolation is. -/
theorem read_contact_result (info : tslib_cy8mrln_palmpre) (c : read_call)
    (hst : is_idle info ∨ is_active info) (hret : 0 < c.ret) (hnr : 0 < c.nr)
    (hgate : info.noise <
      (peak_scan (cy8mrln_palmpre_update_references info.references c.field).2).max_value) :
    cy8mrln_palmpre_read info c =
      (cy8mrln_palmpre_interpolate
        (cy8mrln_palmpre_update_references info.references c.field).2
        (peak_scan (cy8mrln_palmpre_update_references info.references c.field).2).max_x
        (peak_scan (cy8mrln_palmpre_update_references info.references c.field).2).max_y).map
        (contact_result info c) := by
  rw [read_contact_branch info c hret hgate,
    read_contact_eq _ _ _ _ _ (state_with_references info _ hst) hnr]
  cases cy8mrln_palmpre_interpolate
        (cy8mrln_palmpre_update_references info.references c.field).2
        (peak_scan (cy8mrln_palmpre_update_references info.references c.field).2).max_x
        (peak_scan (cy8mrln_palmpre_update_references info.references c.field).2).max_y with
  | none => simp only [Option.map_none']
  | some pos => simp only [Option.map_some', contact_result, contact_sample]

/-- Noise from Idle, for any reference grid: nothing is returned. -/
theorem read_release_idle_refs (info : tslib_cy8mrln_palmpre) (refs : List Nat)
    (samp : List ts_sample) (hc : info.last_valid_samples = none) :
    read_release { info with references := refs } samp =
      some { info := { info with references := refs }, samp := samp, ret := 0 } :=
  read_release_idle _ _ hc

/-- Release from Active, for any reference grid. -/
theorem read_release_active_refs (info : tslib_cy8mrln_palmpre) (refs : List Nat) (nr : Nat)
    (s : ts_sample) (tail : List ts_sample) (hc : info.last_valid_samples = some (s :: tail))
    (hn : info.last_n_valid_samples = 1) (hnr : 0 < nr) :
    read_release { info with references := refs } (List.replicate nr zero_sample) =
      some { info := { info with references := refs, last_n_valid_samples := 0,
                                 last_valid_samples := none }
             samp := { s with pressure := 0 } :: List.replicate (nr - 1) zero_sample
             ret := 1 } :=
  read_release_active _ nr s tail hc hn hnr

/-- From Idle or Active, a frame not above the noise threshold is always
defined; afterwards the cache is empty and the count is 0, and every sample in
the caller's array has pressure 0. -/
theorem read_noise_result (info : tslib_cy8mrln_palmpre) (c : read_call)
    (hst : is_idle info ∨ is_active info) (hret : 0 < c.ret) (hnr : 0 < c.nr)
    (hgate : ¬ info.noise <
      (peak_scan (cy8mrln_palmpre_update_references info.references c.field).2).max_value) :
    ∃ r, cy8mrln_palmpre_read info c = some r ∧ r.info.last_valid_samples = none ∧
      r.info.last_n_valid_samples = 0 ∧ ∀ s, s ∈ r.samp → s.pressure = 0 := by
  rw [read_noise_branch info c hret hgate]
  rcases hst with ⟨hc, hn⟩ | ⟨⟨s, hc⟩, hn⟩
  · rw [read_release_idle_refs _ _ _ hc]
    refine ⟨_, rfl, hc, hn, fun s hs => ?_⟩
    rw [List.eq_of_mem_replicate hs]
    rfl
  · rw [read_release_active_refs _ _ c.nr s [] hc hn hnr]
    refine ⟨_, rfl, rfl, rfl, fun t ht => ?_⟩
    rcases List.mem_cons.1 ht with h1 | h1
    · rw [h1]
    · rw [List.eq_of_mem_replicate h1]
      rfl

/-! ## The read call: claims -/

/-- C2: along every sequence of calls of `cy8mrln_palmpre_read`, whatever their
outcome, no cell of the reference grid is lower after a call than before it. -/
theorem references_never_decrease (info : tslib_cy8mrln_palmpre) (cs : List read_call)
    (rs : List read_result) (h : read_calls info cs = some rs) :
    List.Chain (fun a b => ∀ i, a.references.getD i 0 ≤ b.references.getD i 0)
      info (rs.map read_result.info) := by
  induction cs generalizing info rs with
  | nil =>
    simp only [read_calls, Option.some.injEq] at h
    subst h
    exact List.Chain.nil
  | cons c cs ih =>
    unfold read_calls at h
    split at h
    · exact absurd h (by simp)
    · rename_i r hr
      split at h
      · exact absurd h (by simp)
      · rename_i rs' hrs
        have h' := Option.some.inj h
        rw [← h']
        refine List.Chain.cons (fun i => ?_) (ih r.info rs' hrs)
        rw [read_references info c r hr]
        split
        · exact update_references_mono _ _ i
        · exact le_rfl

/-- Witness of C2: a frame above the reference grid in one cell, then a touch,
then a failed read. -/
theorem references_never_decrease_witness :
    List.Chain (fun a b => ∀ i, a.references.getD i 0 ≤ b.references.getD i 0)
      { idle_info with references := touch_grid }
      ([{ info := idle_info, samp := [zero_sample], ret := 0 },
        { info := active_info, samp := [touch_sample], ret := 1 },
        { info := active_info, samp := [zero_sample], ret := -1 }].map read_result.info) :=
  references_never_decrease { idle_info with references := touch_grid }
    [quiet_call, touch_call, failed_call] _ (by decide!)

/-- C9: when `read(2)` returns no data or an error, `cy8mrln_palmpre_read`
returns -1, leaves every sample of the caller's array zeroed, and leaves the
whole plugin state (reference grid, cache and count included) as it was. -/
theorem read_failure_keeps_state (info : tslib_cy8mrln_palmpre) (c : read_call)
    (h : c.ret ≤ 0) :
    cy8mrln_palmpre_read info c =
      some { info := info, samp := List.replicate c.nr zero_sample, ret := -1 } :=
  read_failed_eq info c h

/-- Witness of C9 in state Active. -/
theorem read_failure_keeps_state_witness :
    cy8mrln_palmpre_read active_info failed_call =
      some { info := active_info, samp := List.replicate failed_call.nr zero_sample, ret := -1 } :=
  read_failure_keeps_state active_info failed_call (by decide)


/-- C5: a successfully read frame is handled as a contact (the interpolator
runs and the contact outcome with the configured pressure results) exactly
when its peak delta is strictly above the noise threshold; otherwise, and in
particular at a peak equal to the threshold, it is noise (no interpolation, no
contact stored, no sample with a pressure); a peak of threshold + 1 is a
contact. -/
theorem noise_gate_strict (info : tslib_cy8mrln_palmpre) (c : read_call)
    (hst : is_idle info ∨ is_active info) (hret : 0 < c.ret) (hnr : 0 < c.nr) :
    (info.noise <
        (peak_scan (cy8mrln_palmpre_update_references info.references c.field).2).max_value ↔
      cy8mrln_palmpre_read info c =
        (cy8mrln_palmpre_interpolate
          (cy8mrln_palmpre_update_references info.references c.field).2
          (peak_scan (cy8mrln_palmpre_update_references info.references c.field).2).max_x
          (peak_scan (cy8mrln_palmpre_update_references info.references c.field).2).max_y).map
          (contact_result info c)) ∧
    (¬ info.noise <
        (peak_scan (cy8mrln_palmpre_update_references info.references c.field).2).max_value →
      ∃ r, cy8mrln_palmpre_read info c = some r ∧ r.info.last_valid_samples = none ∧
        r.info.last_n_valid_samples = 0 ∧ ∀ s, s ∈ r.samp → s.pressure = 0) ∧
    ((peak_scan (cy8mrln_palmpre_update_references info.references c.field).2).max_value
        = info.noise →
      ∃ r, cy8mrln_palmpre_read info c = some r ∧ r.info.last_valid_samples = none ∧
        r.info.last_n_valid_samples = 0 ∧ ∀ s, s ∈ r.samp → s.pressure = 0) ∧
    ((peak_scan (cy8mrln_palmpre_update_references info.references c.field).2).max_value
        = info.noise + 1 →
      cy8mrln_palmpre_read info c =
        (cy8mrln_palmpre_interpolate
          (cy8mrln_palmpre_update_references info.references c.field).2
          (peak_scan (cy8mrln_palmpre_update_references info.references c.field).2).max_x
          (peak_scan (cy8mrln_palmpre_update_references info.references c.field).2).max_y).map
          (contact_result info c)) := by
  refine ⟨⟨fun hgate => read_contact_result info c hst hret hnr hgate, fun heq => ?_⟩,
    fun hgate => read_noise_result info c hst hret hnr hgate,
    fun hpk => read_noise_result info c hst hret hnr (by omega),
    fun hpk => read_contact_result info c hst hret hnr (by omega)⟩
  by_contra hgate
  obtain ⟨r, hr, hnone, _, _⟩ := read_noise_result info c hst hret hnr hgate
  rw [hr] at heq
  cases hint : cy8mrln_palmpre_interpolate
      (cy8mrln_palmpre_update_references info.references c.field).2
      (peak_scan (cy8mrln_palmpre_update_references info.references c.field).2).max_x
      (peak_scan (cy8mrln_palmpre_update_references info.references c.field).2).max_y with
  | none =>
    rw [hint] at heq
    exact absurd heq (by simp)
  | some pos =>
    rw [hint, Option.map_some'] at heq
    have h' := Option.some.inj heq
    rw [h'] at hnone
    exact absurd hnone (by simp [contact_result])

/-- Witness of C5: the frame `touch_grid` has peak 100 above the threshold 25
and is a contact, from state Idle. -/
theorem noise_gate_strict_witness :
    idle_info.noise <
        (peak_scan (cy8mrln_palmpre_update_references idle_info.references
          touch_call.field).2).max_value ↔
      cy8mrln_palmpre_read idle_info touch_call =
        (cy8mrln_palmpre_interpolate
          (cy8mrln_palmpre_update_references idle_info.references touch_call.field).2
          (peak_scan (cy8mrln_palmpre_update_references idle_info.references
            touch_call.field).2).max_x
          (peak_scan (cy8mrln_palmpre_update_references idle_info.references
            touch_call.field).2).max_y).map
          (contact_result idle_info touch_call) :=
  (noise_gate_strict idle_info touch_call (Or.inl ⟨rfl, rfl⟩) (by decide) (by decide)).1

/-- C6: from Idle and from Active, a successfully read frame whose peak delta
exceeds the noise threshold returns 1 and writes into `samp[0]` the
interpolated position of the peak, the configured `ts_pressure` and the
current time; the cache then holds exactly a copy of that sample and
`last_n_valid_samples` is 1.  The call is defined whenever the interpolation
is, which is the case for every noise threshold that is not negative. -/
theorem contact_frame_result (info : tslib_cy8mrln_palmpre) (c : read_call)
    (hr : info.references.length = H_FIELDS * V_FIELDS)
    (hf : c.field.length = H_FIELDS * V_FIELDS)
    (hst : is_idle info ∨ is_active info) (hret : 0 < c.ret) (hnr : 0 < c.nr)
    (hgate : info.noise <
      (peak_scan (cy8mrln_palmpre_update_references info.references c.field).2).max_value) :
    cy8mrln_palmpre_read info c =
      (cy8mrln_palmpre_interpolate
        (cy8mrln_palmpre_update_references info.references c.field).2
        (peak_scan (cy8mrln_palmpre_update_references info.references c.field).2).max_x
        (peak_scan (cy8mrln_palmpre_update_references info.references c.field).2).max_y).map
        (fun pos =>
          { info :=
              { info with
                  references := (cy8mrln_palmpre_update_references info.references c.field).1
                  last_valid_samples :=
                    some [{ x := pos.1, y := pos.2, pressure := info.ts_pressure, tv := c.now }]
                  last_n_valid_samples := 1 }
            samp := { x := pos.1, y := pos.2, pressure := info.ts_pressure, tv := c.now }
                      :: List.replicate (c.nr - 1) zero_sample
            ret := 1 }) ∧
    (0 ≤ info.noise →
      ∃ pos, cy8mrln_palmpre_interpolate
        (cy8mrln_palmpre_update_references info.references c.field).2
        (peak_scan (cy8mrln_palmpre_update_references info.references c.field).2).max_x
        (peak_scan (cy8mrln_palmpre_update_references info.references c.field).2).max_y
          = some pos) := by
  constructor
  · rw [read_contact_branch info c hret hgate,
      read_contact_eq _ _ _ _ _ (state_with_references info _ hst) hnr]
  · intro hnoise
    exact interpolate_at_peak _ (update_references_spec _ _ hr hf).2.1 (by omega)

/-- Witness of C6: the touch on field `(3, 5)` from state Idle. -/
theorem contact_frame_result_witness :
    ∃ pos, cy8mrln_palmpre_interpolate
        (cy8mrln_palmpre_update_references idle_info.references touch_call.field).2
        (peak_scan (cy8mrln_palmpre_update_references idle_info.references
          touch_call.field).2).max_x
        (peak_scan (cy8mrln_palmpre_update_references idle_info.references
          touch_call.field).2).max_y
          = some pos :=
  (contact_frame_result idle_info touch_call (by decide!) (by decide!) (Or.inl ⟨rfl, rfl⟩)
    (by decide) (by decide) (by decide!)).2 (by decide)


/-- C7: after a contact frame that produced a sample, a successfully read
frame whose peak does not exceed the noise threshold returns exactly one
sample, at the position of the contact and with pressure 0, and clears the
cache (`last_valid_samples` is `NULL`, `last_n_valid_samples` is 0); a second
such frame returns 0 samples and leaves the cache empty. -/
theorem release_then_nothing (info : tslib_cy8mrln_palmpre) (c1 c2 : read_call)
    (r1 : read_result) (h1 : cy8mrln_palmpre_read info c1 = some r1)
    (hret1 : 0 < c1.ret)
    (hgate1 : info.noise <
      (peak_scan (cy8mrln_palmpre_update_references info.references c1.field).2).max_value)
    (hret2 : 0 < c2.ret) (hnr2 : 0 < c2.nr)
    (hgate2 : ¬ r1.info.noise <
      (peak_scan (cy8mrln_palmpre_update_references r1.info.references c2.field).2).max_value) :
    ∃ s1 rest r2,
      r1.ret = 1 ∧ r1.samp = s1 :: rest ∧
      cy8mrln_palmpre_read r1.info c2 = some r2 ∧
      r2.ret = 1 ∧
      r2.samp = { x := s1.x, y := s1.y, pressure := 0, tv := s1.tv }
                  :: List.replicate (c2.nr - 1) zero_sample ∧
      r2.info.last_valid_samples = none ∧ r2.info.last_n_valid_samples = 0 ∧
      ∀ c3 : read_call, 0 < c3.ret →
        ¬ r2.info.noise <
          (peak_scan (cy8mrln_palmpre_update_references r2.info.references c3.field).2).max_value →
        ∃ r3, cy8mrln_palmpre_read r2.info c3 = some r3 ∧ r3.ret = 0 ∧
          r3.samp = List.replicate c3.nr zero_sample ∧
          r3.info.last_valid_samples = none ∧ r3.info.last_n_valid_samples = 0 := by
  rw [read_contact_branch info c1 hret1 hgate1] at h1
  obtain ⟨px, py, s0, rest, tail, _, _, hr1⟩ := read_contact_some _ _ _ _ _ _ h1
  have hc1 : r1.info.last_valid_samples =
      some ({ x := px, y := py, pressure := info.ts_pressure, tv := c1.now } :: tail) := by
    rw [hr1]
  have hn1 : r1.info.last_n_valid_samples = 1 := by rw [hr1]
  have hs1 : r1.samp =
      { x := px, y := py, pressure := info.ts_pressure, tv := c1.now } :: rest := by rw [hr1]
  have hrt1 : r1.ret = 1 := by rw [hr1]
  have h2 := read_noise_branch r1.info c2 hret2 hgate2
  rw [read_release_active_refs r1.info _ c2.nr _ tail hc1 hn1 hnr2] at h2
  refine ⟨_, rest, _, hrt1, hs1, h2, rfl, rfl, rfl, rfl, fun c3 hret3 hgate3 => ?_⟩
  have h3 := read_noise_branch _ c3 hret3 hgate3
  rw [read_release_idle _ _ rfl] at h3
  exact ⟨_, h3, rfl, rfl, rfl, rfl⟩

/-- Witness of C7: the touch `touch_call` from Idle, then the frame `flat_grid`. -/
theorem release_then_nothing_witness :
    ∃ s1 rest r2,
      (contact_result idle_info touch_call (162, 258)).ret = 1 ∧
      (contact_result idle_info touch_call (162, 258)).samp = s1 :: rest ∧
      cy8mrln_palmpre_read (contact_result idle_info touch_call (162, 258)).info quiet_call
        = some r2 ∧
      r2.ret = 1 ∧
      r2.samp = { x := s1.x, y := s1.y, pressure := 0, tv := s1.tv }
                  :: List.replicate (quiet_call.nr - 1) zero_sample ∧
      r2.info.last_valid_samples = none ∧ r2.info.last_n_valid_samples = 0 ∧
      ∀ c3 : read_call, 0 < c3.ret →
        ¬ r2.info.noise <
          (peak_scan (cy8mrln_palmpre_update_references r2.info.references c3.field).2).max_value →
        ∃ r3, cy8mrln_palmpre_read r2.info c3 = some r3 ∧ r3.ret = 0 ∧
          r3.samp = List.replicate c3.nr zero_sample ∧
          r3.info.last_valid_samples = none ∧ r3.info.last_n_valid_samples = 0 :=
  release_then_nothing idle_info touch_call quiet_call
    (contact_result idle_info touch_call (162, 258)) (by decide!) (by decide) (by decide!)
    (by decide) (by decide) (by decide!)

/-- C8, as the code has it: the release sample is the cached contact sample
with its pressure set to 0; its position and its timestamp are those stored in
the cache, so the timestamp is the time of the last contact frame and not the
time of the releasing call. -/
theorem release_sample_is_cached (info : tslib_cy8mrln_palmpre) (c : read_call)
    (s : ts_sample) (hc : info.last_valid_samples = some [s])
    (hn : info.last_n_valid_samples = 1) (hret : 0 < c.ret) (hnr : 0 < c.nr)
    (hgate : ¬ info.noise <
      (peak_scan (cy8mrln_palmpre_update_references info.references c.field).2).max_value) :
    cy8mrln_palmpre_read info c =
      some { info :=
               { info with
                   references := (cy8mrln_palmpre_update_references info.references c.field).1
                   last_n_valid_samples := 0
                   last_valid_samples := none }
             samp := { x := s.x, y := s.y, pressure := 0, tv := s.tv }
                       :: List.replicate (c.nr - 1) zero_sample
             ret := 1 } := by
  rw [read_noise_branch info c hret hgate,
    read_release_active_refs info _ c.nr s [] hc hn hnr]

/-- Witness of C8 as amended: release of `touch_sample` by `quiet_call`. -/
theorem release_sample_is_cached_witness :
    cy8mrln_palmpre_read active_info quiet_call =
      some { info :=
               { active_info with
                   references := (cy8mrln_palmpre_update_references active_info.references
                     quiet_call.field).1
                   last_n_valid_samples := 0
                   last_valid_samples := none }
             samp := { x := touch_sample.x, y := touch_sample.y, pressure := 0,
                       tv := touch_sample.tv }
                       :: List.replicate (quiet_call.nr - 1) zero_sample
             ret := 1 } :=
  release_sample_is_cached active_info quiet_call touch_sample rfl rfl (by decide) (by decide)
    (by decide!)

/-- Counterexample to C8 as stated: in state Active with the contact of time 7
in the cache, the releasing call made at time 8 returns a sample whose
timestamp is 7. -/
theorem release_time_is_not_fresh :
    Option.map read_result.samp (cy8mrln_palmpre_read active_info quiet_call)
      = some [{ x := 162, y := 258, pressure := 0, tv := 7 }] ∧
    quiet_call.now = 8 := by
  decide!


/-- Along a sequence of calls that starts in Idle or Active, every state is
Idle or Active and every call that read a frame returns 0 or 1. -/
theorem read_calls_keep_state (info : tslib_cy8mrln_palmpre) (cs : List read_call)
    (rs : List read_result) (hst : is_idle info ∨ is_active info)
    (h : read_calls info cs = some rs) :
    (∀ r, r ∈ rs → is_idle r.info ∨ is_active r.info) ∧
    (∀ p, p ∈ cs.zip rs → 0 < p.1.ret → p.2.ret = 0 ∨ p.2.ret = 1) := by
  induction cs generalizing info rs with
  | nil =>
    simp only [read_calls, Option.some.injEq] at h
    subst h
    simp
  | cons c cs ih =>
    unfold read_calls at h
    split at h
    · exact absurd h (by simp)
    · rename_i r hr
      split at h
      · exact absurd h (by simp)
      · rename_i rs' hrs
        have h' := Option.some.inj h
        rw [← h']
        obtain ⟨hst', _, hcount⟩ := read_keeps_state info c r hst hr
        obtain ⟨ih1, ih2⟩ := ih r.info rs' hst' hrs
        constructor
        · intro x hx
          rcases List.mem_cons.1 hx with hx | hx
          · rw [hx]; exact hst'
          · exact ih1 x hx
        · intro p hp
          rw [List.zip_cons_cons] at hp
          rcases List.mem_cons.1 hp with hp | hp
          · rw [hp]; exact hcount
          · exact ih2 p hp

/-- What Idle and Active say about the cache: it holds no sample or one, and
it is not empty exactly when the count is 1. -/
theorem state_cache (s : tslib_cy8mrln_palmpre) (hst : is_idle s ∨ is_active s) :
    (s.last_valid_samples = none ∨ ∃ x, s.last_valid_samples = some [x]) ∧
    (s.last_valid_samples ≠ none ↔ s.last_n_valid_samples = 1) := by
  rcases hst with ⟨hc, hn⟩ | ⟨⟨x, hc⟩, hn⟩
  · refine ⟨Or.inl hc, ?_⟩
    rw [hc, hn]
    simp
  · refine ⟨Or.inr ⟨x, hc⟩, ?_⟩
    rw [hc, hn]
    simp

/-- C10: in the state set up by `cy8mrln_palmpre_mod_init` and in every state
reached from it by calls of `cy8mrln_palmpre_read`, the cache holds no sample
or exactly one, and it is not empty exactly when `last_n_valid_samples` is 1;
every call that read a frame returns 0 or 1. -/
theorem cache_holds_at_most_one (configured : tslib_cy8mrln_palmpre) (input_field : List Nat)
    (cs : List read_call) (rs : List read_result)
    (h : read_calls (cy8mrln_palmpre_mod_init configured input_field) cs = some rs) :
    (∀ s, s ∈ cy8mrln_palmpre_mod_init configured input_field :: rs.map read_result.info →
      (s.last_valid_samples = none ∨ ∃ x, s.last_valid_samples = some [x]) ∧
      (s.last_valid_samples ≠ none ↔ s.last_n_valid_samples = 1)) ∧
    (∀ p, p ∈ cs.zip rs → 0 < p.1.ret → p.2.ret = 0 ∨ p.2.ret = 1) := by
  have hinit : is_idle (cy8mrln_palmpre_mod_init configured input_field) ∨
      is_active (cy8mrln_palmpre_mod_init configured input_field) := Or.inl ⟨rfl, rfl⟩
  obtain ⟨h1, h2⟩ := read_calls_keep_state _ cs rs hinit h
  refine ⟨fun s hs => state_cache s ?_, h2⟩
  rcases List.mem_cons.1 hs with hs | hs
  · rw [hs]; exact hinit
  · obtain ⟨r, hr, hrs⟩ := List.mem_map.1 hs
    rw [← hrs]
    exact h1 r hr

/-- Witness of C10: initialisation on the frame `flat_grid`, then a touch, a
release, and a failed read. -/
theorem cache_holds_at_most_one_witness :
    (∀ s, s ∈ cy8mrln_palmpre_mod_init active_info flat_grid ::
        ([contact_result idle_info touch_call (162, 258),
          { info := idle_info,
            samp := [{ x := 162, y := 258, pressure := 0, tv := 7 }], ret := 1 },
          { info := idle_info, samp := [zero_sample], ret := -1 }].map read_result.info) →
      (s.last_valid_samples = none ∨ ∃ x, s.last_valid_samples = some [x]) ∧
      (s.last_valid_samples ≠ none ↔ s.last_n_valid_samples = 1)) ∧
    (∀ p, p ∈ [touch_call, quiet_call, failed_call].zip
        [contact_result idle_info touch_call (162, 258),
          { info := idle_info,
            samp := [{ x := 162, y := 258, pressure := 0, tv := 7 }], ret := 1 },
          { info := idle_info, samp := [zero_sample], ret := -1 }] →
      0 < p.1.ret → p.2.ret = 0 ∨ p.2.ret = 1) :=
  cache_holds_at_most_one active_info flat_grid [touch_call, quiet_call, failed_call] _
    (by decide!)


/-! ## Reference tracker and peak scan: further claims -/

/-- C20: in every cell the new reference is the maximum of the old reference
and the raw value, and delta plus raw equals the new reference as natural
numbers; so the 16-bit subtraction does not wrap and no delta exceeds the new
reference of its cell. -/
theorem update_references_max (references field : List Nat)
    (hr : is_grid references) (hf : is_grid field) (i : Nat) (hi : i < H_FIELDS * V_FIELDS) :
    (cy8mrln_palmpre_update_references references field).1.getD i 0
      = max (references.getD i 0) (field.getD i 0) ∧
    (cy8mrln_palmpre_update_references references field).2.getD i 0 + field.getD i 0
      = (cy8mrln_palmpre_update_references references field).1.getD i 0 ∧
    ((cy8mrln_palmpre_update_references references field).2.getD i 0 : Int)
      = ((cy8mrln_palmpre_update_references references field).1.getD i 0 : Int)
          - (field.getD i 0 : Int) ∧
    (cy8mrln_palmpre_update_references references field).2.getD i 0
      ≤ (cy8mrln_palmpre_update_references references field).1.getD i 0 := by
  obtain ⟨_, _, h⟩ := update_references_spec references field hr.1 hf.1
  obtain ⟨h1, h2⟩ := h i hi
  rw [h1, h2]
  by_cases hgt : field.getD i 0 > references.getD i 0
  · simp only [if_pos hgt]
    refine ⟨?_, ?_, ?_, ?_⟩
    · rw [max_eq_right (by omega)]
    · omega
    · omega
    · omega
  · simp only [if_neg hgt]
    rw [to_uint16_sub _ _ (hr.2 i hi) (by omega)]
    refine ⟨?_, ?_, ?_, ?_⟩
    · rw [max_eq_left (by omega)]
    · omega
    · omega
    · omega

/-- Witness of C20 at the touched cell of `touch_grid` against `flat_grid`. -/
theorem update_references_max_witness :
    (cy8mrln_palmpre_update_references flat_grid touch_grid).1.getD 38 0
      = max (flat_grid.getD 38 0) (touch_grid.getD 38 0) ∧
    (cy8mrln_palmpre_update_references flat_grid touch_grid).2.getD 38 0
        + touch_grid.getD 38 0
      = (cy8mrln_palmpre_update_references flat_grid touch_grid).1.getD 38 0 :=
  ⟨(update_references_max flat_grid touch_grid (by decide!) (by decide!) 38 (by decide!)).1,
   (update_references_max flat_grid touch_grid (by decide!) (by decide!) 38 (by decide!)).2.1⟩

/-- The peak scan of a grid whose 77 cells are all zero ends at `(0, 0, 0)`. -/
theorem peak_scan_zero (field : List Nat)
    (hz : ∀ k, k < H_FIELDS * V_FIELDS → field.getD k 0 = 0) :
    peak_scan field = { max_x := 0, max_y := 0, max_value := 0 } := by
  obtain ⟨_, hcase⟩ := peak_scan_spec field
  rcases hcase with ⟨hp, _⟩ | ⟨_, h2, h3, h4, _⟩
  · exact hp
  · rw [hz _ h2] at h3
    omega

/-- C15: when all 77 deltas of a successfully read frame are zero, the peak
scan yields `(max_x, max_y, max_value) = (0, 0, 0)`, and under every noise
threshold that is not negative the frame is noise: the call is defined
without any interpolation, stores no contact and returns no sample with a
pressure. -/
theorem zero_grid_is_noise (info : tslib_cy8mrln_palmpre) (c : read_call)
    (hst : is_idle info ∨ is_active info) (hret : 0 < c.ret) (hnr : 0 < c.nr)
    (hz : ∀ k, k < H_FIELDS * V_FIELDS →
      (cy8mrln_palmpre_update_references info.references c.field).2.getD k 0 = 0)
    (hnoise : 0 ≤ info.noise) :
    peak_scan (cy8mrln_palmpre_update_references info.references c.field).2
      = { max_x := 0, max_y := 0, max_value := 0 } ∧
    ¬ info.noise <
      (peak_scan (cy8mrln_palmpre_update_references info.references c.field).2).max_value ∧
    ∃ r, cy8mrln_palmpre_read info c = some r ∧ r.info.last_valid_samples = none ∧
      r.info.last_n_valid_samples = 0 ∧ ∀ s, s ∈ r.samp → s.pressure = 0 := by
  have hp := peak_scan_zero _ hz
  have hgate : ¬ info.noise <
      (peak_scan (cy8mrln_palmpre_update_references info.references c.field).2).max_value := by
    rw [hp]
    simp only [not_lt]
    exact hnoise
  exact ⟨hp, hgate, read_noise_result info c hst hret hnr hgate⟩

/-- Witness of C15: the frame `flat_grid` read in state `idle_info`. -/
theorem zero_grid_is_noise_witness :
    peak_scan (cy8mrln_palmpre_update_references idle_info.references quiet_call.field).2
      = { max_x := 0, max_y := 0, max_value := 0 } :=
  (zero_grid_is_noise idle_info quiet_call (Or.inl ⟨rfl, rfl⟩) (by decide) (by decide)
    (by decide!) (by decide)).1


/-! ## Interpolator: claims on the calls made by the read call -/

/-- C19: under a noise threshold that is not negative, the call of
`cy8mrln_palmpre_interpolate` made by `cy8mrln_palmpre_read` for a frame above
the threshold is total: the peak coordinates are inside the grid, the peak
cell and every neighbour cell that is read lie in `0..76`, the divisor
`field[y * H_FIELDS + x]` is positive, and a position results. -/
theorem interpolate_call_total (info : tslib_cy8mrln_palmpre) (c : read_call)
    (hr : info.references.length = H_FIELDS * V_FIELDS)
    (hf : c.field.length = H_FIELDS * V_FIELDS)
    (hnoise : 0 ≤ info.noise)
    (hgate : info.noise <
      (peak_scan (cy8mrln_palmpre_update_references info.references c.field).2).max_value) :
    (peak_scan (cy8mrln_palmpre_update_references info.references c.field).2).max_x
      < H_FIELDS ∧
    (peak_scan (cy8mrln_palmpre_update_references info.references c.field).2).max_y
      < V_FIELDS ∧
    0 < (cy8mrln_palmpre_update_references info.references c.field).2.getD
      ((peak_scan (cy8mrln_palmpre_update_references info.references c.field).2).max_y
          * H_FIELDS
        + (peak_scan (cy8mrln_palmpre_update_references info.references c.field).2).max_x) 0 ∧
    interpolate_defined (cy8mrln_palmpre_update_references info.references c.field).2
      (peak_scan (cy8mrln_palmpre_update_references info.references c.field).2).max_x
      (peak_scan (cy8mrln_palmpre_update_references info.references c.field).2).max_y ∧
    (cy8mrln_palmpre_update_references info.references c.field).2.length = 77 ∧
    ∃ pos, cy8mrln_palmpre_interpolate
      (cy8mrln_palmpre_update_references info.references c.field).2
      (peak_scan (cy8mrln_palmpre_update_references info.references c.field).2).max_x
      (peak_scan (cy8mrln_palmpre_update_references info.references c.field).2).max_y
        = some pos := by
  have hlen := (update_references_spec _ _ hr hf).2.1
  generalize (cy8mrln_palmpre_update_references info.references c.field).2 = field
    at hlen hgate ⊢
  obtain ⟨_, hcase⟩ := peak_scan_spec field
  rcases hcase with ⟨hp, _⟩ | ⟨h1, h2, h3, h4, _⟩
  · rw [hp] at hgate
    exact absurd hgate (by simp only [not_lt]; exact hnoise)
  · have hy : (peak_scan field).max_y < V_FIELDS := by
      simp only [H_FIELDS, V_FIELDS] at *; omega
    have hne : field.getD ((peak_scan field).max_y * H_FIELDS + (peak_scan field).max_x) 0
        ≠ 0 := by
      intro h0
      rw [h0] at h3
      omega
    have hd : interpolate_defined field (peak_scan field).max_x (peak_scan field).max_y := by
      simp only [H_FIELDS, V_FIELDS, interpolate_defined] at *
      exact ⟨by omega, hne, fun h => by omega, fun h => by omega, fun h => by omega,
        fun h => by omega⟩
    refine ⟨h1, hy, by omega, hd, hlen, ?_⟩
    unfold cy8mrln_palmpre_interpolate
    rw [if_pos hd]
    exact ⟨_, rfl⟩

/-- Witness of C19: the touch frame read in state `idle_info`. -/
theorem interpolate_call_total_witness :
    interpolate_defined
      (cy8mrln_palmpre_update_references idle_info.references touch_call.field).2
      (peak_scan (cy8mrln_palmpre_update_references idle_info.references
        touch_call.field).2).max_x
      (peak_scan (cy8mrln_palmpre_update_references idle_info.references
        touch_call.field).2).max_y :=
  (interpolate_call_total idle_info touch_call (by decide!) (by decide!) (by decide)
    (by decide!)).2.2.2.1



/-! ## Floating-point rounding: shared lemmas -/

/-- The function `pow2` is the integer power of two. -/
theorem pow2_eq (e : Int) : pow2 e = (2 : Rat) ^ e := by
  unfold pow2
  split
  · rename_i h
    obtain ⟨n, rfl⟩ := Int.eq_ofNat_of_zero_le h
    simp
  · rename_i h
    obtain ⟨n, hn⟩ := Int.exists_eq_neg_ofNat (by omega : e ≤ 0)
    subst hn
    simp

/-- A power of two is positive. -/
theorem pow2_pos (e : Int) : 0 < pow2 e := by
  rw [pow2_eq]
  positivity

/-- Powers of two multiply by adding the exponents. -/
theorem pow2_add (a b : Int) : pow2 (a + b) = pow2 a * pow2 b := by
  simp only [pow2_eq]
  exact zpow_add₀ (by norm_num) a b

/-- Powers of two grow with the exponent. -/
theorem pow2_le (a b : Int) (h : a ≤ b) : pow2 a ≤ pow2 b := by
  simp only [pow2_eq]
  exact zpow_le_zpow_right₀ (by norm_num) h

/-- Powers of two grow strictly with the exponent. -/
theorem pow2_lt (a b : Int) (h : a < b) : pow2 a < pow2 b := by
  simp only [pow2_eq]
  exact zpow_lt_zpow_right₀ (by norm_num) h

/-- At an exponent that is not negative, `pow2` is the power of the natural
number 2. -/
theorem pow2_nat (n : Nat) : pow2 (n : Int) = ((2 ^ n : Nat) : Rat) := by
  rw [pow2_eq]
  simp

/-- The number 0 has no binary digit. -/
theorem bit_length_fuel_zero (fuel : Nat) : bit_length_fuel fuel 0 = 0 := by
  cases fuel <;> simp [bit_length_fuel]

/-- A number that is not zero has `bit_length` binary digits. -/
theorem bit_length_fuel_spec (fuel n : Nat) (hn : n ≤ fuel) (h0 : n ≠ 0) :
    1 ≤ bit_length_fuel fuel n ∧ 2 ^ (bit_length_fuel fuel n - 1) ≤ n ∧
      n < 2 ^ bit_length_fuel fuel n := by
  induction fuel generalizing n with
  | zero => omega
  | succ fuel ih =>
    simp only [bit_length_fuel, h0, if_false]
    by_cases h2 : n / 2 = 0
    · rw [h2, bit_length_fuel_zero]
      have : n = 1 := by omega
      subst this
      simp
    · obtain ⟨i1, i2, i3⟩ := ih (n / 2) (by omega) h2
      refine ⟨by omega, ?_, ?_⟩
      · have e : bit_length_fuel fuel (n / 2) + 1 - 1
            = (bit_length_fuel fuel (n / 2) - 1) + 1 := by omega
        rw [e, pow_succ]
        omega
      · rw [pow_succ]
        omega

/-- A number `n` that is not zero lies between `2 ^ (bit_length n - 1)` and
`2 ^ bit_length n`. -/
theorem bit_length_spec (n : Nat) (h0 : n ≠ 0) :
    1 ≤ bit_length n ∧ 2 ^ (bit_length n - 1) ≤ n ∧ n < 2 ^ bit_length n :=
  bit_length_fuel_spec n n le_rfl h0

/-- The function `binary_exponent` gives the binary exponent of a positive
rational. -/
theorem binary_exponent_spec (q : Rat) (hq : 0 < q) :
    pow2 (binary_exponent q) ≤ q ∧ q < pow2 (binary_exponent q + 1) := by
  have hnum : 0 < q.num := Rat.num_pos.2 hq
  have ha0 : q.num.toNat ≠ 0 := by omega
  have hb0 : q.den ≠ 0 := q.den_nz
  obtain ⟨a1, a2, a3⟩ := bit_length_spec q.num.toNat ha0
  obtain ⟨b1, b2, b3⟩ := bit_length_spec q.den hb0
  have hqa : q = (q.num.toNat : Rat) / (q.den : Rat) := by
    have h1 : ((q.num.toNat : Int) : Rat) = (q.num : Rat) := by
      rw [Int.toNat_of_nonneg hnum.le]
    have h2 : ((q.num.toNat : Int) : Rat) = (q.num.toNat : Rat) := by push_cast; rfl
    rw [← h2, h1, Rat.num_div_den]
  have hbpos : (0 : Rat) < (q.den : Rat) := by exact_mod_cast Nat.pos_of_ne_zero hb0
  have a2' : ((2 ^ (bit_length q.num.toNat - 1) : Nat) : Rat) ≤ (q.num.toNat : Rat) := by
    exact_mod_cast a2
  have a3' : (q.num.toNat : Rat) < ((2 ^ bit_length q.num.toNat : Nat) : Rat) := by
    exact_mod_cast a3
  have b2' : ((2 ^ (bit_length q.den - 1) : Nat) : Rat) ≤ (q.den : Rat) := by
    exact_mod_cast b2
  have b3' : (q.den : Rat) < ((2 ^ bit_length q.den : Nat) : Rat) := by
    exact_mod_cast b3
  -- the two enclosing powers
  have hup : q < pow2 ((bit_length q.num.toNat : Int) - (bit_length q.den : Int) + 1) := by
    have e : pow2 ((bit_length q.num.toNat : Int) - (bit_length q.den : Int) + 1)
        * pow2 ((bit_length q.den - 1 : Nat) : Int) = pow2 (bit_length q.num.toNat : Int) := by
      rw [← pow2_add]
      congr 1
      omega
    rw [pow2_nat, pow2_nat] at e
    refine lt_of_eq_of_lt hqa ?_
    rw [div_lt_iff₀ hbpos]
    calc (q.num.toNat : Rat) < ((2 ^ bit_length q.num.toNat : Nat) : Rat) := a3'
      _ = pow2 ((bit_length q.num.toNat : Int) - (bit_length q.den : Int) + 1)
            * ((2 ^ (bit_length q.den - 1) : Nat) : Rat) := e.symm
      _ ≤ pow2 ((bit_length q.num.toNat : Int) - (bit_length q.den : Int) + 1)
            * (q.den : Rat) := mul_le_mul_of_nonneg_left b2' (pow2_pos _).le
  have hlow : pow2 ((bit_length q.num.toNat : Int) - (bit_length q.den : Int) - 1) ≤ q := by
    have e : pow2 ((bit_length q.num.toNat : Int) - (bit_length q.den : Int) - 1)
        * pow2 ((bit_length q.den : Nat) : Int)
        = pow2 ((bit_length q.num.toNat - 1 : Nat) : Int) := by
      rw [← pow2_add]
      congr 1
      omega
    rw [pow2_nat, pow2_nat] at e
    refine le_of_le_of_eq ?_ hqa.symm
    rw [le_div_iff₀ hbpos]
    calc pow2 ((bit_length q.num.toNat : Int) - (bit_length q.den : Int) - 1) * (q.den : Rat)
        ≤ pow2 ((bit_length q.num.toNat : Int) - (bit_length q.den : Int) - 1)
            * ((2 ^ bit_length q.den : Nat) : Rat) :=
          mul_le_mul_of_nonneg_left b3'.le (pow2_pos _).le
      _ = ((2 ^ (bit_length q.num.toNat - 1) : Nat) : Rat) := e
      _ ≤ (q.num.toNat : Rat) := a2'
  unfold binary_exponent
  simp only
  split
  · rename_i h
    exact ⟨h, hup⟩
  · rename_i h
    refine ⟨hlow, ?_⟩
    rw [sub_add_cancel]
    exact not_le.1 h

/-- The binary exponent does not decrease with the rational. -/
theorem binary_exponent_mono (q r : Rat) (hq : 0 < q) (hqr : q ≤ r) :
    binary_exponent q ≤ binary_exponent r := by
  obtain ⟨q1, _⟩ := binary_exponent_spec q hq
  obtain ⟨_, r2⟩ := binary_exponent_spec r (lt_of_lt_of_le hq hqr)
  by_contra hlt
  have h1 : binary_exponent r + 1 ≤ binary_exponent q := by omega
  have := pow2_le _ _ h1
  linarith

/-- The function `round_half_even` in terms of the floor. -/
theorem round_half_even_eq (m : Rat) :
    round_half_even m =
      if m - (Int.floor m : Rat) < 1 / 2 then Int.floor m
      else if 1 / 2 < m - (Int.floor m : Rat) then Int.floor m + 1
      else if Int.floor m % 2 = 0 then Int.floor m else Int.floor m + 1 := by
  unfold round_half_even
  simp only [← Rat.floor_def]

/-- Rounding to an integer gives the floor or the next integer. -/
theorem round_half_even_near (m : Rat) :
    Int.floor m ≤ round_half_even m ∧ round_half_even m ≤ Int.floor m + 1 := by
  rw [round_half_even_eq]
  split_ifs <;> constructor <;> omega

/-- Rounding to an integer is monotone. -/
theorem round_half_even_mono (m n : Rat) (h : m ≤ n) :
    round_half_even m ≤ round_half_even n := by
  have hf : Int.floor m ≤ Int.floor n := Int.floor_mono h
  rcases lt_or_eq_of_le hf with hlt | heq
  · exact le_trans (round_half_even_near m).2 (le_trans (by omega) (round_half_even_near n).1)
  · rw [round_half_even_eq, round_half_even_eq, heq]
    have hr : m - (Int.floor n : Rat) ≤ n - (Int.floor n : Rat) := by linarith
    split_ifs <;> first | omega | (exfalso; linarith)

/-- An integer is rounded to itself. -/
theorem round_half_even_int (k : Int) : round_half_even (k : Rat) = k := by
  rw [round_half_even_eq, Int.floor_intCast]
  simp

/-- Rounding to an integer respects integer bounds. -/
theorem round_half_even_bounds (m : Rat) (lo hi : Int) (h1 : (lo : Rat) ≤ m)
    (h2 : m ≤ (hi : Rat)) : lo ≤ round_half_even m ∧ round_half_even m ≤ hi := by
  have a := round_half_even_mono _ _ h1
  have b := round_half_even_mono _ _ h2
  rw [round_half_even_int] at a b
  exact ⟨a, b⟩

/-- A positive rational rounds to a value between the two powers of two that
enclose it. -/
theorem round_pos_bounds (prec : Nat) (hp : 1 ≤ prec) (q : Rat) (hq : 0 < q) :
    pow2 (binary_exponent q) ≤ round_pos prec q ∧
    round_pos prec q ≤ pow2 (binary_exponent q + 1) := by
  obtain ⟨h1, h2⟩ := binary_exponent_spec q hq
  have hpos := pow2_pos (binary_exponent q - ((prec : Int) - 1))
  have elo : pow2 (((prec - 1 : Nat) : Int)) * pow2 (binary_exponent q - ((prec : Int) - 1))
      = pow2 (binary_exponent q) := by
    rw [← pow2_add]
    congr 1
    omega
  have ehi : pow2 ((prec : Nat) : Int) * pow2 (binary_exponent q - ((prec : Int) - 1))
      = pow2 (binary_exponent q + 1) := by
    rw [← pow2_add]
    congr 1
    omega
  rw [pow2_nat] at elo ehi
  have mlo : (((2 ^ (prec - 1) : Nat) : Int) : Rat)
      ≤ q / pow2 (binary_exponent q - ((prec : Int) - 1)) := by
    rw [le_div_iff₀ hpos]
    push_cast at elo ⊢
    rw [elo]
    exact h1
  have mhi : q / pow2 (binary_exponent q - ((prec : Int) - 1))
      ≤ (((2 ^ prec : Nat) : Int) : Rat) := by
    rw [div_le_iff₀ hpos]
    push_cast at ehi ⊢
    rw [ehi]
    exact h2.le
  obtain ⟨n1, n2⟩ := round_half_even_bounds _ _ _ mlo mhi
  have n1' : (((2 ^ (prec - 1) : Nat) : Int) : Rat)
      ≤ (round_half_even (q / pow2 (binary_exponent q - ((prec : Int) - 1))) : Rat) := by
    exact_mod_cast n1
  have n2' : (round_half_even (q / pow2 (binary_exponent q - ((prec : Int) - 1))) : Rat)
      ≤ (((2 ^ prec : Nat) : Int) : Rat) := by
    exact_mod_cast n2
  unfold round_pos
  simp only
  constructor
  · rw [← elo]
    push_cast at n1' ⊢
    exact mul_le_mul_of_nonneg_right n1' hpos.le
  · rw [← ehi]
    push_cast at n2' ⊢
    exact mul_le_mul_of_nonneg_right n2' hpos.le

/-- A positive rational rounds to a positive value. -/
theorem round_pos_pos (prec : Nat) (hp : 1 ≤ prec) (q : Rat) (hq : 0 < q) :
    0 < round_pos prec q :=
  lt_of_lt_of_le (pow2_pos _) (round_pos_bounds prec hp q hq).1

/-- Rounding of positive rationals is monotone. -/
theorem round_pos_mono (prec : Nat) (hp : 1 ≤ prec) (q r : Rat) (hq : 0 < q) (hqr : q ≤ r) :
    round_pos prec q ≤ round_pos prec r := by
  have hr : 0 < r := lt_of_lt_of_le hq hqr
  rcases lt_or_eq_of_le (binary_exponent_mono q r hq hqr) with hlt | heq
  · exact le_trans (round_pos_bounds prec hp q hq).2
      (le_trans (pow2_le _ _ (by omega)) (round_pos_bounds prec hp r hr).1)
  · unfold round_pos
    simp only [heq]
    have hpos := pow2_pos (binary_exponent r - ((prec : Int) - 1))
    apply mul_le_mul_of_nonneg_right _ hpos.le
    have : q / pow2 (binary_exponent r - ((prec : Int) - 1))
        ≤ r / pow2 (binary_exponent r - ((prec : Int) - 1)) :=
      div_le_div_of_nonneg_right hqr hpos.le
    exact_mod_cast round_half_even_mono _ _ this

/-- Rounding to `prec` significant bits is monotone. -/
theorem round_to_mono (prec : Nat) (hp : 1 ≤ prec) (q r : Rat) (hqr : q ≤ r) :
    round_to prec q ≤ round_to prec r := by
  unfold round_to
  rcases lt_trichotomy q 0 with hq | hq | hq
  · have hq0 : ¬ q = 0 := ne_of_lt hq
    have hq1 : ¬ 0 < q := not_lt.2 hq.le
    simp only [hq0, hq1, if_false]
    have hn := round_pos_pos prec hp (-q) (by linarith)
    rcases lt_trichotomy r 0 with hr | hr | hr
    · have hr0 : ¬ r = 0 := ne_of_lt hr
      have hr1 : ¬ 0 < r := not_lt.2 hr.le
      simp only [hr0, hr1, if_false]
      have := round_pos_mono prec hp (-r) (-q) (by linarith) (by linarith)
      linarith
    · simp only [hr, if_true]
      linarith
    · have hr0 : ¬ r = 0 := ne_of_gt hr
      simp only [hr0, hr, if_true, if_false]
      have := round_pos_pos prec hp r hr
      linarith
  · subst hq
    simp only [if_true]
    rcases lt_or_eq_of_le hqr with hr | hr
    · have hr0 : ¬ r = 0 := ne_of_gt hr
      simp only [hr0, hr, if_true, if_false]
      exact (round_pos_pos prec hp r hr).le
    · rw [← hr]
      simp
  · have hq0 : ¬ q = 0 := ne_of_gt hq
    have hr : 0 < r := lt_of_lt_of_le hq hqr
    have hr0 : ¬ r = 0 := ne_of_gt hr
    simp only [hq0, hq, hr0, hr, if_true, if_false]
    exact round_pos_mono prec hp q r hq hqr

/-- A positive number with at most `prec` significant bits is rounded to
itself. -/
theorem round_pos_exact (prec : Nat) (n : Nat) (e' : Int) (hn0 : 0 < n)
    (hn : n < 2 ^ prec) :
    round_pos prec ((n : Rat) * pow2 e') = (n : Rat) * pow2 e' := by
  have hn0' : (0 : Rat) < (n : Rat) := by exact_mod_cast hn0
  have hq : 0 < (n : Rat) * pow2 e' := mul_pos hn0' (pow2_pos e')
  obtain ⟨h1, _⟩ := binary_exponent_spec _ hq
  have hlt : (n : Rat) * pow2 e' < pow2 ((prec : Int) + e') := by
    rw [pow2_add, pow2_nat]
    apply mul_lt_mul_of_pos_right _ (pow2_pos e')
    exact_mod_cast hn
  have hE : binary_exponent ((n : Rat) * pow2 e') < (prec : Int) + e' := by
    by_contra hge
    have := pow2_le _ _ (not_lt.1 hge)
    linarith
  obtain ⟨k, hk⟩ : ∃ k : Nat,
      e' = binary_exponent ((n : Rat) * pow2 e') - ((prec : Int) - 1) + (k : Int) :=
    ⟨(e' - (binary_exponent ((n : Rat) * pow2 e') - ((prec : Int) - 1))).toNat, by omega⟩
  unfold round_pos
  simp only
  generalize binary_exponent ((n : Rat) * pow2 e') - ((prec : Int) - 1) = e at hk
  have hpos := pow2_pos e
  have hsplit : pow2 e' = ((2 ^ k : Nat) : Rat) * pow2 e := by
    rw [hk, pow2_add, pow2_nat, mul_comm]
  have hm : (n : Rat) * pow2 e' / pow2 e = (((n * 2 ^ k : Nat) : Int) : Rat) := by
    rw [hsplit]
    field_simp
    ring
  rw [hm, round_half_even_int, hsplit]
  push_cast
  ring

/-- A number with at most `prec` significant bits is rounded to itself. -/
theorem round_to_exact (prec : Nat) (n : Nat) (e' : Int) (hn : n < 2 ^ prec) :
    round_to prec ((n : Rat) * pow2 e') = (n : Rat) * pow2 e' ∧
    round_to prec (-((n : Rat) * pow2 e')) = -((n : Rat) * pow2 e') := by
  rcases Nat.eq_zero_or_pos n with h0 | h0
  · subst h0
    simp [round_to]
  · have hn0' : (0 : Rat) < (n : Rat) := by exact_mod_cast h0
    have hq : 0 < (n : Rat) * pow2 e' := mul_pos hn0' (pow2_pos e')
    have e1 := round_pos_exact prec n e' h0 hn
    unfold round_to
    constructor
    · simp only [ne_of_gt hq, hq, if_true, if_false]
      exact e1
    · have hneg : ¬ (-((n : Rat) * pow2 e') = 0) := by linarith
      have hneg' : ¬ (0 < -((n : Rat) * pow2 e')) := by linarith
      simp only [hneg, hneg', if_false, neg_neg]
      rw [e1]

/-- Every integer below `2 ^ 24` in magnitude, and every half of one, is a
`float`; the same holds for `double`. -/
theorem float_exact (n : Nat) (hn : n < 2 ^ 24) :
    to_float (n : Rat) = n ∧ to_float (-(n : Rat)) = -(n : Rat) ∧
    to_float ((n : Rat) / 2) = (n : Rat) / 2 ∧
    to_float (-((n : Rat) / 2)) = -((n : Rat) / 2) ∧
    to_double (n : Rat) = n ∧ to_double ((1 / 2 : Rat) * (n : Rat)) = (1 / 2 : Rat) * (n : Rat) ∧
    to_double ((n : Rat) / 2) = (n : Rat) / 2 ∧
    to_double (-((n : Rat) / 2)) = -((n : Rat) / 2) := by
  have hn' : n < 2 ^ 53 := lt_trans hn (by norm_num)
  have p0 : pow2 0 = 1 := by decide
  have p1 : pow2 (-1) = 1 / 2 := by decide!
  have a := round_to_exact 24 n 0 hn
  have b := round_to_exact 24 n (-1) hn
  have c := round_to_exact 53 n 0 hn'
  have d := round_to_exact 53 n (-1) hn'
  rw [p0, mul_one] at a c
  rw [p1] at b d
  unfold to_float to_double
  refine ⟨a.1, a.2, ?_, ?_, c.1, ?_, ?_, ?_⟩
  · have := b.1
    rw [show (n : Rat) / 2 = (n : Rat) * (1 / 2) by ring]
    exact this
  · have := b.2
    rw [show (n : Rat) / 2 = (n : Rat) * (1 / 2) by ring]
    exact this
  · have := d.1
    rw [show (1 / 2 : Rat) * (n : Rat) = (n : Rat) * (1 / 2) by ring]
    exact this
  · have := d.1
    rw [show (n : Rat) / 2 = (n : Rat) * (1 / 2) by ring]
    exact this
  · have := d.2
    rw [show (n : Rat) / 2 = (n : Rat) * (1 / 2) by ring]
    exact this

/-- The conversions `to_float` and `to_double` are monotone. -/
theorem float_mono (q r : Rat) (h : q ≤ r) :
    to_float q ≤ to_float r ∧ to_double q ≤ to_double r :=
  ⟨round_to_mono 24 (by norm_num) q r h, round_to_mono 53 (by norm_num) q r h⟩

/-! ## Interpolator: shared lemmas -/

/-- The C constants of the interpolator as numbers: field width 45 and field
height 47. -/
theorem field_size :
    SCREEN_WIDTH / (H_FIELDS : Int) = 45 ∧ SCREEN_HEIGHT / (V_FIELDS : Int) = 47 := by
  decide

/-- The centring offsets of the interpolator as numbers: 22 and 23. -/
theorem half_field_size : (45 / 2 : Int) = 22 ∧ (47 / 2 : Int) = 23 := by
  decide

/-- The four edge positions after the outward shift by half a field, computed
in `double` and truncated. -/
theorem edge_positions :
    trunc (to_double ((319 : Rat) + to_double (45 / 2))) = 341 ∧
    trunc (to_double ((49 : Rat) - to_double (45 / 2))) = 26 ∧
    trunc (to_double ((0 : Rat) - to_double (47 / 2))) = -23 ∧
    trunc (to_double ((470 : Rat) + to_double (47 / 2))) = 493 := by
  decide!

/-- On a 77-cell grid the interpolation is defined at every cell of the grid
whose value is positive. -/
theorem interpolate_defined_of_pos (field : List Nat) (x y : Nat)
    (hlen : field.length = H_FIELDS * V_FIELDS) (hx : x < H_FIELDS) (hy : y < V_FIELDS)
    (hp : 0 < field.getD (y * H_FIELDS + x) 0) :
    interpolate_defined field x y := by
  simp only [H_FIELDS, V_FIELDS, interpolate_defined] at *
  exact ⟨by omega, by omega, fun h => by omega, fun h => by omega, fun h => by omega,
    fun h => by omega⟩

/-- The x coordinate at the edge `x = 0`. -/
theorem interpolate_x_first (field : List Nat) (y : Nat)
    (hd : interpolate_defined field 0 y) :
    (cy8mrln_palmpre_interpolate field 0 y).map Prod.fst =
      some (trunc (to_float (to_float
        (((trunc (to_double ((319 : Rat) + to_double (45 / 2))) : Int) : Rat)
          + to_float (to_float
              (0 - doubled (half_ratio_double (field.getD (y * 7 + 1) 0)
                              (field.getD (y * 7) 0))) * 45))
        - 22))) := by
  have hx6 : ¬ 0 = H_FIELDS - 1 := by decide
  unfold cy8mrln_palmpre_interpolate
  rw [if_pos hd]
  simp only [hx6, if_true, if_false, field_size.1, field_size.2, half_field_size.1,
    half_field_size.2, Option.map_some']
  simp only [SCREEN_WIDTH, H_FIELDS]
  push_cast
  ring_nf

/-- The x coordinate at the edge `x = 6`. -/
theorem interpolate_x_last (field : List Nat) (y : Nat)
    (hd : interpolate_defined field 6 y) :
    (cy8mrln_palmpre_interpolate field 6 y).map Prod.fst =
      some (trunc (to_float (to_float
        (((trunc (to_double ((49 : Rat) - to_double (45 / 2))) : Int) : Rat)
          + to_float (to_float
              (doubled (half_ratio_double (field.getD (y * 7 + 5) 0)
                          (field.getD (y * 7 + 6) 0)) - 0) * 45))
        - 22))) := by
  have hx0 : ¬ 6 = 0 := by decide
  have hx6 : 6 = H_FIELDS - 1 := by decide
  unfold cy8mrln_palmpre_interpolate
  rw [if_pos hd]
  simp only [hx0, ← hx6, if_true, if_false, field_size.1, field_size.2, half_field_size.1,
    half_field_size.2, Option.map_some']
  simp only [SCREEN_WIDTH, H_FIELDS]
  push_cast
  ring_nf

/-- The x coordinate away from the two edges. -/
theorem interpolate_x_inner (field : List Nat) (x y : Nat)
    (hd : interpolate_defined field x y) (hx1 : 1 ≤ x) (hx5 : x ≤ 5) :
    (cy8mrln_palmpre_interpolate field x y).map Prod.fst =
      some (trunc (to_float (to_float
        ((319 : Rat) - 45 * (x : Rat)
          + to_float (to_float
              (half_ratio_double (field.getD (y * 7 + x - 1) 0) (field.getD (y * 7 + x) 0)
               - half_ratio_double (field.getD (y * 7 + x + 1) 0)
                   (field.getD (y * 7 + x) 0)) * 45))
        - 22))) := by
  have hx0 : ¬ x = 0 := by omega
  have hx6 : ¬ x = H_FIELDS - 1 := by simp only [H_FIELDS]; omega
  unfold cy8mrln_palmpre_interpolate
  rw [if_pos hd]
  simp only [hx0, hx6, if_true, if_false, field_size.1, field_size.2, half_field_size.1,
    half_field_size.2, Option.map_some']
  simp only [SCREEN_WIDTH, H_FIELDS]
  push_cast
  ring_nf

/-- The y coordinate at the edge `y = 0`. -/
theorem interpolate_y_first (field : List Nat) (x : Nat)
    (hd : interpolate_defined field x 0) :
    (cy8mrln_palmpre_interpolate field x 0).map Prod.snd =
      some (trunc (to_float (to_float
        (((trunc (to_double ((0 : Rat) - to_double (47 / 2))) : Int) : Rat)
          + to_float (to_float
              (doubled (half_ratio_double (field.getD (7 + x) 0) (field.getD x 0)) - 0) * 47))
        + 23))) := by
  have hy10 : ¬ 0 = V_FIELDS - 1 := by decide
  unfold cy8mrln_palmpre_interpolate
  rw [if_pos hd]
  simp only [hy10, if_true, if_false, field_size.1, field_size.2, half_field_size.1,
    half_field_size.2, Option.map_some']
  simp only [SCREEN_HEIGHT, H_FIELDS]
  push_cast
  ring_nf

/-- The y coordinate at the edge `y = 10`. -/
theorem interpolate_y_last (field : List Nat) (x : Nat)
    (hd : interpolate_defined field x 10) :
    (cy8mrln_palmpre_interpolate field x 10).map Prod.snd =
      some (trunc (to_float (to_float
        (((trunc (to_double ((470 : Rat) + to_double (47 / 2))) : Int) : Rat)
          + to_float (to_float
              (0 - doubled (half_ratio_float (field.getD (63 + x) 0)
                              (field.getD (70 + x) 0))) * 47))
        + 23))) := by
  have hy0 : ¬ 10 = 0 := by decide
  have hy10 : 10 = V_FIELDS - 1 := by decide
  unfold cy8mrln_palmpre_interpolate
  rw [if_pos hd]
  simp only [hy0, ← hy10, if_true, if_false, field_size.1, field_size.2, half_field_size.1,
    half_field_size.2, Option.map_some']
  simp only [SCREEN_HEIGHT, H_FIELDS]
  push_cast
  ring_nf

/-- The y coordinate away from the two edges. -/
theorem interpolate_y_inner (field : List Nat) (x y : Nat)
    (hd : interpolate_defined field x y) (hy1 : 1 ≤ y) (hy9 : y ≤ 9) :
    (cy8mrln_palmpre_interpolate field x y).map Prod.snd =
      some (trunc (to_float (to_float
        ((47 : Rat) * (y : Rat)
          + to_float (to_float
              (half_ratio_double (field.getD ((y + 1) * 7 + x) 0) (field.getD (y * 7 + x) 0)
               - half_ratio_float (field.getD ((y - 1) * 7 + x) 0)
                   (field.getD (y * 7 + x) 0)) * 47))
        + 23))) := by
  have hy0 : ¬ y = 0 := by omega
  have hy10 : ¬ y = V_FIELDS - 1 := by simp only [V_FIELDS]; omega
  unfold cy8mrln_palmpre_interpolate
  rw [if_pos hd]
  simp only [hy0, hy10, if_true, if_false, field_size.1, field_size.2, half_field_size.1,
    half_field_size.2, Option.map_some']
  simp only [SCREEN_HEIGHT, H_FIELDS]
  push_cast
  ring_nf

/-! ## Interpolator: claims -/

/-- C11, as the code has it: at an interior peak (`1 ≤ x ≤ 5`, `1 ≤ y ≤ 9`) with a
positive peak delta `p`, the interpolator returns the two formulas evaluated in
`float` arithmetic, every operation rounded, and truncated to an integer:
`x = 319 - 45 x + (right - left) 45 - 22` and `y = 47 y + (down - up) 47 + 23`.
Each ratio is half the ratio of a neighbour to the peak stored in a `float`:
right from `field[y*7+x-1]`, left from `field[y*7+x+1]` and down from
`field[(y+1)*7+x]` with the product and the division in `double`, up from
`field[(y-1)*7+x]` with the division in `float`. -/
theorem interpolate_interior (field : List Nat) (x y : Nat)
    (hlen : field.length = H_FIELDS * V_FIELDS)
    (hx1 : 1 ≤ x) (hx5 : x ≤ 5) (hy1 : 1 ≤ y) (hy9 : y ≤ 9)
    (hp : 0 < field.getD (y * 7 + x) 0) :
    cy8mrln_palmpre_interpolate field x y =
      some
        (trunc (to_float (to_float
          ((319 : Rat) - 45 * (x : Rat)
            + to_float (to_float
                (half_ratio_double (field.getD (y * 7 + x - 1) 0) (field.getD (y * 7 + x) 0)
                 - half_ratio_double (field.getD (y * 7 + x + 1) 0)
                     (field.getD (y * 7 + x) 0)) * 45))
          - 22)),
         trunc (to_float (to_float
          ((47 : Rat) * (y : Rat)
            + to_float (to_float
                (half_ratio_double (field.getD ((y + 1) * 7 + x) 0) (field.getD (y * 7 + x) 0)
                 - half_ratio_float (field.getD ((y - 1) * 7 + x) 0)
                     (field.getD (y * 7 + x) 0)) * 47))
          + 23))) := by
  have hd : interpolate_defined field x y :=
    interpolate_defined_of_pos field x y hlen (by simp only [H_FIELDS]; omega)
      (by simp only [V_FIELDS]; omega) hp
  have hX := interpolate_x_inner field x y hd hx1 hx5
  have hY := interpolate_y_inner field x y hd hy1 hy9
  cases hint : cy8mrln_palmpre_interpolate field x y with
  | none =>
    rw [hint] at hX
    exact absurd hX (by simp)
  | some pos =>
    rw [hint, Option.map_some', Option.some.injEq] at hX hY
    rw [← hX, ← hY]

/-- Witness of C11 on `bump_grid`: the position is `(153, 276)`. -/
theorem interpolate_interior_witness :
    cy8mrln_palmpre_interpolate bump_grid 3 5 = some (153, 276) :=
  (interpolate_interior bump_grid 3 5 (by decide!) (by decide) (by decide) (by decide)
    (by decide) (by decide!)).trans (by decide!)

/-- Counterexample to C11 as stated: on `rounding_grid`, whose peak
39991 lies on the interior field `(1, 5)`, the interpolator returns `x = 260`,
while the same formula in exact arithmetic, truncated, gives 259 (the
exact value is just below 260 and the `float` sum rounds up to 260). -/
theorem interpolate_interior_rounds_up :
    rounding_grid.length = H_FIELDS * V_FIELDS ∧
    0 < rounding_grid.getD (5 * 7 + 1) 0 ∧
    cy8mrln_palmpre_interpolate rounding_grid 1 5 = some (260, 258) ∧
    trunc ((319 : Rat) - 45 * ((1 : Nat) : Rat)
            + ((1 / 2 : Rat) * (rounding_grid.getD (5 * 7 + 1 - 1) 0 : Rat)
                  / (rounding_grid.getD (5 * 7 + 1) 0 : Rat)
               - (1 / 2 : Rat) * (rounding_grid.getD (5 * 7 + 1 + 1) 0 : Rat)
                  / (rounding_grid.getD (5 * 7 + 1) 0 : Rat)) * 45
            - 22) = 259 := by
  decide!

/-- C12, as the code has it: at a peak with `x = 0` and positive peak delta `p`, the x
coordinate is computed as for an interior field, except that the nominal
position 319 is shifted outward by half a field width and truncated
(`319 + 22.5`, giving 341), the missing neighbour at `x - 1` contributes the
ratio 0, and the one horizontal ratio (half of `field[y*7+1] / p`, stored in a
`float`) is doubled; the sum is evaluated in `float` arithmetic, every
operation rounded, and then truncated. -/
theorem interpolate_left_edge (field : List Nat) (y : Nat)
    (hlen : field.length = H_FIELDS * V_FIELDS) (hy : y < V_FIELDS)
    (hp : 0 < field.getD (y * 7) 0) :
    (cy8mrln_palmpre_interpolate field 0 y).map Prod.fst =
      some (trunc (to_float (to_float
        (((trunc (to_double ((319 : Rat) + to_double (45 / 2))) : Int) : Rat)
          + to_float (to_float
              (0 - doubled (half_ratio_double (field.getD (y * 7 + 1) 0)
                              (field.getD (y * 7) 0))) * 45))
        - 22))) ∧
    trunc (to_double ((319 : Rat) + to_double (45 / 2))) = 341 :=
  ⟨interpolate_x_first field y
    (interpolate_defined_of_pos field 0 y hlen (by decide) hy hp), edge_positions.1⟩

/-- Witness of C12 on `corner_grid`: the x coordinate is 305. -/
theorem interpolate_left_edge_witness :
    (cy8mrln_palmpre_interpolate corner_grid 0 0).map Prod.fst = some 305 :=
  (interpolate_left_edge corner_grid 0 (by decide!) (by decide) (by decide!)).1.trans
    (by decide!)

/-- Counterexample to C12 as stated: on `left_edge_grid`, whose peak
65534 lies on the edge field `(0, 5)`, the interpolator returns `x = 303`,
while the same formula in exact arithmetic, truncated, gives 302. -/
theorem interpolate_left_edge_rounds_up :
    left_edge_grid.length = H_FIELDS * V_FIELDS ∧
    0 < left_edge_grid.getD (5 * 7) 0 ∧
    (cy8mrln_palmpre_interpolate left_edge_grid 0 5).map Prod.fst = some 303 ∧
    trunc (((trunc ((319 : Rat) + 45 / 2) : Int) : Rat)
        - 2 * ((1 / 2 : Rat) * (left_edge_grid.getD (5 * 7 + 1) 0 : Rat)
                / (left_edge_grid.getD (5 * 7) 0 : Rat)) * 45
        - 22) = 302 := by
  decide!

/-- C13, as the code has it: at the other three grid edges, with a positive peak
delta, the nominal position on the axis of the edge is shifted outward by half
a field and truncated (`x = 6`: `49 - 22.5`, giving 26; `y = 0`: `0 - 23.5`,
giving -23; `y = 10`: `470 + 23.5`, giving 493), the missing neighbour
contributes the ratio 0 and the one ratio on that axis (half of neighbour /
peak, stored in a `float`) is doubled; the sum is evaluated in `float`
arithmetic, every operation rounded, and then truncated. -/
theorem interpolate_other_edges (field : List Nat)
    (hlen : field.length = H_FIELDS * V_FIELDS) :
    (∀ y, y < V_FIELDS → 0 < field.getD (y * 7 + 6) 0 →
      (cy8mrln_palmpre_interpolate field 6 y).map Prod.fst =
        some (trunc (to_float (to_float
          (((trunc (to_double ((49 : Rat) - to_double (45 / 2))) : Int) : Rat)
            + to_float (to_float
                (doubled (half_ratio_double (field.getD (y * 7 + 5) 0)
                            (field.getD (y * 7 + 6) 0)) - 0) * 45))
          - 22)))) ∧
    (∀ x, x < H_FIELDS → 0 < field.getD x 0 →
      (cy8mrln_palmpre_interpolate field x 0).map Prod.snd =
        some (trunc (to_float (to_float
          (((trunc (to_double ((0 : Rat) - to_double (47 / 2))) : Int) : Rat)
            + to_float (to_float
                (doubled (half_ratio_double (field.getD (7 + x) 0) (field.getD x 0)) - 0)
                  * 47))
          + 23)))) ∧
    (∀ x, x < H_FIELDS → 0 < field.getD (70 + x) 0 →
      (cy8mrln_palmpre_interpolate field x 10).map Prod.snd =
        some (trunc (to_float (to_float
          (((trunc (to_double ((470 : Rat) + to_double (47 / 2))) : Int) : Rat)
            + to_float (to_float
                (0 - doubled (half_ratio_float (field.getD (63 + x) 0)
                                (field.getD (70 + x) 0))) * 47))
          + 23)))) ∧
    trunc (to_double ((49 : Rat) - to_double (45 / 2))) = 26 ∧
    trunc (to_double ((0 : Rat) - to_double (47 / 2))) = -23 ∧
    trunc (to_double ((470 : Rat) + to_double (47 / 2))) = 493 := by
  refine ⟨fun y hy hp => ?_, fun x hx hp => ?_, fun x hx hp => ?_, edge_positions.2.1,
    edge_positions.2.2.1, edge_positions.2.2.2⟩
  · exact interpolate_x_last field y
      (interpolate_defined_of_pos field 6 y hlen (by decide) hy hp)
  · apply interpolate_y_first field x
    apply interpolate_defined_of_pos field x 0 hlen hx (by decide)
    simp only [H_FIELDS] at *
    simpa using hp
  · apply interpolate_y_last field x
    apply interpolate_defined_of_pos field x 10 hlen hx (by decide)
    simp only [H_FIELDS] at *
    rw [show 10 * 7 + x = 70 + x by omega]
    exact hp

/-- Witness of C13 on `far_corner_grid`: at the corner `(6, 10)` the x
coordinate is 17. -/
theorem interpolate_other_edges_witness :
    (cy8mrln_palmpre_interpolate far_corner_grid 6 10).map Prod.fst = some 17 :=
  ((interpolate_other_edges far_corner_grid (by decide!)).1 10 (by decide)
    (by decide!)).trans (by decide!)

/-- Counterexample to C13 as stated: on `top_edge_grid`, whose peak 47
lies on the edge field `(3, 0)` with the neighbour 16 below it, the
interpolator returns `y = 15`, while moving from the shifted position -23 by
neighbour / peak times a full field (`16 / 47 * 47 = 16`) and adding the half
field 23 gives 16 in exact arithmetic. -/
theorem interpolate_top_edge_rounds_down :
    top_edge_grid.length = H_FIELDS * V_FIELDS ∧
    0 < top_edge_grid.getD 3 0 ∧
    (cy8mrln_palmpre_interpolate top_edge_grid 3 0).map Prod.snd = some 15 ∧
    trunc (((trunc ((0 : Rat) - 47 / 2) : Int) : Rat)
        + 2 * ((1 / 2 : Rat) * (top_edge_grid.getD (7 + 3) 0 : Rat)
                / (top_edge_grid.getD 3 0 : Rat)) * 47
        + 23) = 16 ∧
    trunc (((trunc ((0 : Rat) - 47 / 2) : Int) : Rat)
        + (top_edge_grid.getD (7 + 3) 0 : Rat) / (top_edge_grid.getD 3 0 : Rat) * 47
        + 23) = 16 := by
  decide!

/-- The peak of `single_touch_deltas` and its interpolated position. -/
theorem single_touch_position :
    peak_scan single_touch_deltas = { max_x := 3, max_y := 5, max_value := 100 } ∧
    cy8mrln_palmpre_interpolate single_touch_deltas 3 5 = some (162, 258) := by
  decide!

/-- C14: when the delta grid of a successfully read frame is 100 on field
`(3, 5)` and 0 elsewhere, with noise threshold 25 and pressure 255, the call
returns exactly one sample, with pressure 255, at the uncorrected centre of
field `(3, 5)`: `x = 319 - 3 * 45 - 22 = 162` and `y = 5 * 47 + 23 = 258`. -/
theorem single_touch_end_to_end (info : tslib_cy8mrln_palmpre) (c : read_call)
    (hst : is_idle info ∨ is_active info) (hret : 0 < c.ret) (hnr : 0 < c.nr)
    (hdelta : (cy8mrln_palmpre_update_references info.references c.field).2
      = single_touch_deltas)
    (hnoise : info.noise = 25) (hpressure : info.ts_pressure = 255) :
    ∃ r, cy8mrln_palmpre_read info c = some r ∧ r.ret = 1 ∧
      r.samp = { x := 162, y := 258, pressure := 255, tv := c.now }
                 :: List.replicate (c.nr - 1) zero_sample ∧
      (162 : Int) = 319 - 3 * 45 - 22 ∧ (258 : Int) = 5 * 47 + 23 := by
  have hgate : info.noise <
      (peak_scan (cy8mrln_palmpre_update_references info.references c.field).2).max_value := by
    rw [hdelta, single_touch_position.1, hnoise]
    decide
  have h := read_contact_result info c hst hret hnr hgate
  rw [hdelta, single_touch_position.1] at h
  simp only at h
  rw [single_touch_position.2, Option.map_some'] at h
  refine ⟨_, h, rfl, ?_, by decide, by decide⟩
  simp only [contact_result, contact_sample, hpressure]

/-- Witness of C14: the frame `touch_grid` read in state `idle_info`. -/
theorem single_touch_end_to_end_witness :
    ∃ r, cy8mrln_palmpre_read idle_info touch_call = some r ∧ r.ret = 1 ∧
      r.samp = { x := 162, y := 258, pressure := 255, tv := touch_call.now }
                 :: List.replicate (touch_call.nr - 1) zero_sample ∧
      (162 : Int) = 319 - 3 * 45 - 22 ∧ (258 : Int) = 5 * 47 + 23 :=
  single_touch_end_to_end idle_info touch_call (Or.inl ⟨rfl, rfl⟩) (by decide) (by decide)
    (by decide!) rfl rfl


/-! ## Interpolator: the position lies on the screen -/

/-- Truncation of a rational that is not negative is its floor: it is not
negative and stays below every integer bound of the rational. -/
theorem trunc_bounds (q : Rat) (b : Int) (h0 : 0 ≤ q) (hb : q ≤ (b : Rat)) :
    0 ≤ trunc q ∧ trunc q ≤ b := by
  have hfloor : trunc q = Int.floor q := by
    unfold trunc
    rw [Int.tdiv_eq_ediv (Rat.num_nonneg.2 h0) (Int.ofNat_nonneg _), Rat.floor_def]
  rw [hfloor]
  refine ⟨Int.floor_nonneg.2 h0, ?_⟩
  have h1 : ((Int.floor q : Int) : Rat) ≤ (b : Rat) := le_trans (Int.floor_le q) hb
  exact_mod_cast h1

/-- The values 0, one half and 1 are `float` and `double` values. -/
theorem float_constants :
    to_float 0 = 0 ∧ to_float (1 / 2) = 1 / 2 ∧ to_float 1 = 1 ∧
    to_double 0 = 0 ∧ to_double (1 / 2) = 1 / 2 ∧ to_double 1 = 1 := by
  decide!

/-- Rounding to `float` or `double` keeps a value between 0 and a bound that
is itself a `float` and `double` value, here one half and 1. -/
theorem float_unit_bounds (q : Rat) (h0 : 0 ≤ q) :
    0 ≤ to_float q ∧ 0 ≤ to_double q ∧
    (q ≤ 1 / 2 → to_float q ≤ 1 / 2 ∧ to_double q ≤ 1 / 2) ∧
    (q ≤ 1 → to_float q ≤ 1 ∧ to_double q ≤ 1) := by
  obtain ⟨f0, fh, f1, d0, dh, d1⟩ := float_constants
  refine ⟨?_, ?_, fun h => ⟨?_, ?_⟩, fun h => ⟨?_, ?_⟩⟩
  · exact le_of_eq_of_le f0.symm (float_mono 0 q h0).1
  · exact le_of_eq_of_le d0.symm (float_mono 0 q h0).2
  · exact le_of_le_of_eq (float_mono q (1 / 2) h).1 fh
  · exact le_of_le_of_eq (float_mono q (1 / 2) h).2 dh
  · exact le_of_le_of_eq (float_mono q 1 h).1 f1
  · exact le_of_le_of_eq (float_mono q 1 h).2 d1

/-- Half the ratio of a `uint16_t` cell to a positive cell that is not
smaller, computed in `double` and stored in a `float`, lies between 0 and one
half. -/
theorem half_ratio_double_bounds (n p : Nat) (hp : 0 < p) (hn : n ≤ p) (hp16 : p < 65536) :
    0 ≤ half_ratio_double n p ∧ half_ratio_double n p ≤ 1 / 2 := by
  have hp' : (0 : Rat) < (p : Rat) := by exact_mod_cast hp
  have hn' : (n : Rat) ≤ (p : Rat) := by exact_mod_cast hn
  have hn0 : (0 : Rat) ≤ (n : Rat) := by exact_mod_cast Nat.zero_le n
  have hex : to_double ((1 / 2 : Rat) * (n : Rat)) = (1 / 2 : Rat) * (n : Rat) :=
    (float_exact n (by omega)).2.2.2.2.2.1
  have hfn : to_float (n : Rat) = n := (float_exact n (by omega)).1
  have hdp : to_double (p : Rat) = p := (float_exact p (by omega)).2.2.2.2.1
  have hq0 : 0 ≤ (1 / 2 : Rat) * (n : Rat) / (p : Rat) := by
    apply div_nonneg _ hp'.le
    linarith
  have hq1 : (1 / 2 : Rat) * (n : Rat) / (p : Rat) ≤ 1 / 2 := by
    rw [div_le_iff₀ hp']
    linarith
  unfold half_ratio_double
  rw [hfn, hdp, hex]
  have hd0 := (float_unit_bounds _ hq0).2.1
  have hd1 := ((float_unit_bounds _ hq0).2.2.1 hq1).2
  exact ⟨(float_unit_bounds _ hd0).1, ((float_unit_bounds _ hd0).2.2.1 hd1).1⟩

/-- Half the ratio of a `uint16_t` cell to a positive cell that is not
smaller, with the division in `float`, lies between 0 and one half. -/
theorem half_ratio_float_bounds (n p : Nat) (hp : 0 < p) (hn : n ≤ p) (hp16 : p < 65536) :
    0 ≤ half_ratio_float n p ∧ half_ratio_float n p ≤ 1 / 2 := by
  have hfn : to_float (n : Rat) = n := (float_exact n (by omega)).1
  have hfp : to_float (p : Rat) = p := (float_exact p (by omega)).1
  have hp' : (0 : Rat) < (p : Rat) := by exact_mod_cast hp
  have hn' : (n : Rat) ≤ (p : Rat) := by exact_mod_cast hn
  have hn0 : (0 : Rat) ≤ (n : Rat) := by exact_mod_cast Nat.zero_le n
  have hq0 : 0 ≤ (n : Rat) / (p : Rat) := div_nonneg hn0 hp'.le
  have hq1 : (n : Rat) / (p : Rat) ≤ 1 := by
    rw [div_le_iff₀ hp']
    linarith
  have hf0 := (float_unit_bounds _ hq0).1
  have hf1 := ((float_unit_bounds _ hq0).2.2.2 hq1).1
  have hh0 : 0 ≤ (1 / 2 : Rat) * to_float ((n : Rat) / (p : Rat)) := by linarith
  have hh1 : (1 / 2 : Rat) * to_float ((n : Rat) / (p : Rat)) ≤ 1 / 2 := by linarith
  unfold half_ratio_float
  rw [hfn, hfp]
  have hd0 := (float_unit_bounds _ hh0).2.1
  have hd1 := ((float_unit_bounds _ hh0).2.2.1 hh1).2
  exact ⟨(float_unit_bounds _ hd0).1, ((float_unit_bounds _ hd0).2.2.1 hd1).1⟩

/-- Doubling a ratio between 0 and one half gives a ratio between 0 and 1. -/
theorem doubled_bounds (f : Rat) (h0 : 0 ≤ f) (h1 : f ≤ 1 / 2) :
    0 ≤ doubled f ∧ doubled f ≤ 1 := by
  have hh0 : 0 ≤ f * 2 := by linarith
  have hh1 : f * 2 ≤ 1 := by linarith
  unfold doubled
  have hd0 := (float_unit_bounds _ hh0).2.1
  have hd1 := ((float_unit_bounds _ hh0).2.2.2 hh1).2
  exact ⟨(float_unit_bounds _ hd0).1, ((float_unit_bounds _ hd0).2.2.2 hd1).1⟩

/-- The final sum of the interpolator grows with the nominal position and with
the difference of the two ratios, for a field dimension that is not
negative; this holds with the half field subtracted (x) and added (y). -/
theorem final_sum_mono (pos1 pos2 d1 d2 c off : Rat) (hc : 0 ≤ c) (hpos : pos1 ≤ pos2)
    (hd : d1 ≤ d2) :
    to_float (to_float (pos1 + to_float (to_float d1 * c)) - off)
      ≤ to_float (to_float (pos2 + to_float (to_float d2 * c)) - off) ∧
    to_float (to_float (pos1 + to_float (to_float d1 * c)) + off)
      ≤ to_float (to_float (pos2 + to_float (to_float d2 * c)) + off) := by
  have h1 : to_float d1 * c ≤ to_float d2 * c :=
    mul_le_mul_of_nonneg_right (float_mono _ _ hd).1 hc
  have h2 : pos1 + to_float (to_float d1 * c) ≤ pos2 + to_float (to_float d2 * c) :=
    add_le_add hpos (float_mono _ _ h1).1
  have h3 := (float_mono _ _ h2).1
  exact ⟨(float_mono _ _ (sub_le_sub_right h3 off)).1,
    (float_mono _ _ (add_le_add_right h3 off)).1⟩

/-- The final sums of the interpolator at the extreme values of the nominal
position and of the ratio difference: x at the edge 0, inside and at the edge
6, then y at the edge 0, inside and at the edge 10. -/
theorem final_sum_corners :
    (0 ≤ to_float (to_float ((341 : Rat) + to_float (to_float (-1) * 45)) - 22) ∧
     to_float (to_float ((341 : Rat) + to_float (to_float 0 * 45)) - 22) ≤ 319) ∧
    (0 ≤ to_float (to_float ((94 : Rat) + to_float (to_float (-(1 / 2)) * 45)) - 22) ∧
     to_float (to_float ((274 : Rat) + to_float (to_float (1 / 2) * 45)) - 22) ≤ 319) ∧
    (0 ≤ to_float (to_float ((26 : Rat) + to_float (to_float 0 * 45)) - 22) ∧
     to_float (to_float ((26 : Rat) + to_float (to_float 1 * 45)) - 22) ≤ 319) ∧
    (0 ≤ to_float (to_float ((-23 : Rat) + to_float (to_float 0 * 47)) + 23) ∧
     to_float (to_float ((-23 : Rat) + to_float (to_float 1 * 47)) + 23) ≤ 527) ∧
    (0 ≤ to_float (to_float ((47 : Rat) + to_float (to_float (-(1 / 2)) * 47)) + 23) ∧
     to_float (to_float ((423 : Rat) + to_float (to_float (1 / 2) * 47)) + 23) ≤ 527) ∧
    (0 ≤ to_float (to_float ((493 : Rat) + to_float (to_float (-1) * 47)) + 23) ∧
     to_float (to_float ((493 : Rat) + to_float (to_float 0 * 47)) + 23) ≤ 527) := by
  decide!

/-- At a `uint16_t` cell that holds a positive maximum of its row neighbours,
the x coordinate of the interpolation lies between 0 and 319. -/
theorem interpolate_x_on_screen (field : List Nat) (x y : Nat)
    (hd : interpolate_defined field x y) (hx : x < 7)
    (hp : 0 < field.getD (y * 7 + x) 0) (hp16 : field.getD (y * 7 + x) 0 < 65536)
    (hmax : ∀ k, field.getD k 0 ≤ field.getD (y * 7 + x) 0) :
    ∃ px, (cy8mrln_palmpre_interpolate field x y).map Prod.fst = some px ∧
      0 ≤ px ∧ px ≤ 319 := by
  rcases Nat.eq_zero_or_pos x with h0 | h0
  · subst h0
    have h := interpolate_x_first field y hd
    rw [edge_positions.1] at h
    simp only [Nat.add_zero] at hp hp16 hmax
    obtain ⟨t0, t1⟩ := half_ratio_double_bounds _ _ hp (hmax (y * 7 + 1)) hp16
    obtain ⟨s0, s1⟩ := doubled_bounds _ t0 t1
    refine ⟨_, h, trunc_bounds _ 319 ?_ ?_⟩
    · push_cast
      exact le_trans final_sum_corners.1.1
        (final_sum_mono _ _ _ _ _ _ (by norm_num) le_rfl (by linarith)).1
    · push_cast
      exact le_trans (final_sum_mono _ _ _ _ _ _ (by norm_num) le_rfl (by linarith)).1
        final_sum_corners.1.2
  · rcases Nat.lt_or_ge x 6 with h6 | h6
    · have h := interpolate_x_inner field x y hd h0 (by omega)
      obtain ⟨t0, t1⟩ := half_ratio_double_bounds _ _ hp (hmax (y * 7 + x - 1)) hp16
      obtain ⟨u0, u1⟩ := half_ratio_double_bounds _ _ hp (hmax (y * 7 + x + 1)) hp16
      have hx1 : (1 : Rat) ≤ (x : Rat) := by exact_mod_cast h0
      have hx5 : (x : Rat) ≤ 5 := by exact_mod_cast (by omega : x ≤ 5)
      refine ⟨_, h, trunc_bounds _ 319 ?_ ?_⟩
      · exact le_trans final_sum_corners.2.1.1
          (final_sum_mono _ _ _ _ _ _ (by norm_num) (by linarith) (by linarith)).1
      · push_cast
        exact le_trans
          (final_sum_mono _ _ _ _ _ _ (by norm_num) (by linarith) (by linarith)).1
          final_sum_corners.2.1.2
    · have hx6 : x = 6 := by omega
      subst hx6
      have h := interpolate_x_last field y hd
      rw [edge_positions.2.1] at h
      obtain ⟨t0, t1⟩ := half_ratio_double_bounds _ _ hp (hmax (y * 7 + 5)) hp16
      obtain ⟨s0, s1⟩ := doubled_bounds _ t0 t1
      refine ⟨_, h, trunc_bounds _ 319 ?_ ?_⟩
      · push_cast
        exact le_trans final_sum_corners.2.2.1.1
          (final_sum_mono _ _ _ _ _ _ (by norm_num) le_rfl (by linarith)).1
      · push_cast
        exact le_trans (final_sum_mono _ _ _ _ _ _ (by norm_num) le_rfl (by linarith)).1
          final_sum_corners.2.2.1.2

/-- At a `uint16_t` cell that holds a positive maximum of its column
neighbours, the y coordinate of the interpolation lies between 0 and 527. -/
theorem interpolate_y_on_screen (field : List Nat) (x y : Nat)
    (hd : interpolate_defined field x y) (hy : y < 11)
    (hp : 0 < field.getD (y * 7 + x) 0) (hp16 : field.getD (y * 7 + x) 0 < 65536)
    (hmax : ∀ k, field.getD k 0 ≤ field.getD (y * 7 + x) 0) :
    ∃ py, (cy8mrln_palmpre_interpolate field x y).map Prod.snd = some py ∧
      0 ≤ py ∧ py ≤ 527 := by
  rcases Nat.eq_zero_or_pos y with h0 | h0
  · subst h0
    have h := interpolate_y_first field x hd
    rw [edge_positions.2.2.1] at h
    simp only [Nat.zero_mul, Nat.zero_add] at hp hp16 hmax
    obtain ⟨t0, t1⟩ := half_ratio_double_bounds _ _ hp (hmax (7 + x)) hp16
    obtain ⟨s0, s1⟩ := doubled_bounds _ t0 t1
    refine ⟨_, h, trunc_bounds _ 527 ?_ ?_⟩
    · push_cast
      exact le_trans final_sum_corners.2.2.2.1.1
        (final_sum_mono _ _ _ _ _ _ (by norm_num) le_rfl (by linarith)).2
    · push_cast
      exact le_trans (final_sum_mono _ _ _ _ _ _ (by norm_num) le_rfl (by linarith)).2
        final_sum_corners.2.2.2.1.2
  · rcases Nat.lt_or_ge y 10 with h10 | h10
    · have h := interpolate_y_inner field x y hd h0 (by omega)
      obtain ⟨t0, t1⟩ := half_ratio_double_bounds _ _ hp (hmax ((y + 1) * 7 + x)) hp16
      obtain ⟨u0, u1⟩ := half_ratio_float_bounds _ _ hp (hmax ((y - 1) * 7 + x)) hp16
      have hy1 : (1 : Rat) ≤ (y : Rat) := by exact_mod_cast h0
      have hy9 : (y : Rat) ≤ 9 := by exact_mod_cast (by omega : y ≤ 9)
      refine ⟨_, h, trunc_bounds _ 527 ?_ ?_⟩
      · exact le_trans final_sum_corners.2.2.2.2.1.1
          (final_sum_mono _ _ _ _ _ _ (by norm_num) (by linarith) (by linarith)).2
      · push_cast
        exact le_trans
          (final_sum_mono _ _ _ _ _ _ (by norm_num) (by linarith) (by linarith)).2
          final_sum_corners.2.2.2.2.1.2
    · have hy10 : y = 10 := by omega
      subst hy10
      have h := interpolate_y_last field x hd
      rw [edge_positions.2.2.2] at h
      have hidx : 10 * 7 + x = 70 + x := by omega
      rw [hidx] at hp hp16 hmax
      obtain ⟨t0, t1⟩ := half_ratio_float_bounds _ _ hp (hmax (63 + x)) hp16
      obtain ⟨s0, s1⟩ := doubled_bounds _ t0 t1
      refine ⟨_, h, trunc_bounds _ 527 ?_ ?_⟩
      · push_cast
        exact le_trans final_sum_corners.2.2.2.2.2.1
          (final_sum_mono _ _ _ _ _ _ (by norm_num) le_rfl (by linarith)).2
      · push_cast
        exact le_trans (final_sum_mono _ _ _ _ _ _ (by norm_num) le_rfl (by linarith)).2
          final_sum_corners.2.2.2.2.2.2

/-- A value stored in a `uint16_t` object is below `2 ^ 16`. -/
theorem to_uint16_lt (v : Int) : to_uint16 v < 65536 := by
  unfold to_uint16
  omega

/-- Every cell of the delta grid is a `uint16_t` value. -/
theorem update_references_deltas_bound (references field : List Nat)
    (hr : references.length = H_FIELDS * V_FIELDS) (hf : field.length = H_FIELDS * V_FIELDS)
    (i : Nat) :
    (cy8mrln_palmpre_update_references references field).2.getD i 0 < 65536 := by
  obtain ⟨_, hlen, hcell⟩ := update_references_spec references field hr hf
  rcases Nat.lt_or_ge i (H_FIELDS * V_FIELDS) with hi | hi
  · rw [(hcell i hi).2]
    split_ifs
    · decide
    · exact to_uint16_lt _
  · rw [List.getD_eq_default _ _ (by rw [hlen]; exact hi)]
    decide

/-- The interpolation at a positive peak of a 77-cell grid of `uint16_t`
values lies on the screen. -/
theorem interpolate_peak_on_screen (field : List Nat)
    (hlen : field.length = H_FIELDS * V_FIELDS)
    (hcell : ∀ i, field.getD i 0 < 65536)
    (hpos : 0 < (peak_scan field).max_value) :
    ∃ pos, cy8mrln_palmpre_interpolate field (peak_scan field).max_x (peak_scan field).max_y
        = some pos ∧
      0 ≤ pos.1 ∧ pos.1 ≤ 319 ∧ 0 ≤ pos.2 ∧ pos.2 ≤ 527 := by
  obtain ⟨hle, hcase⟩ := peak_scan_spec field
  rcases hcase with ⟨hp, _⟩ | ⟨h1, h2, h3, h4, _⟩
  · rw [hp] at hpos
    exact absurd hpos (by simp)
  · simp only [H_FIELDS, V_FIELDS] at hlen hle h1 h2 h3
    have hp : 0 < field.getD ((peak_scan field).max_y * 7 + (peak_scan field).max_x) 0 := by
      omega
    have hmax : ∀ k, field.getD k 0
        ≤ field.getD ((peak_scan field).max_y * 7 + (peak_scan field).max_x) 0 := by
      intro k
      rcases Nat.lt_or_ge k 77 with hk | hk
      · have := hle k (by omega)
        omega
      · rw [List.getD_eq_default _ _ (by omega)]
        exact Nat.zero_le _
    have hy : (peak_scan field).max_y < 11 := by omega
    have hd : interpolate_defined field (peak_scan field).max_x (peak_scan field).max_y :=
      interpolate_defined_of_pos field _ _ (by simp only [H_FIELDS, V_FIELDS]; omega)
        (by simp only [H_FIELDS]; omega) (by simp only [V_FIELDS]; omega)
        (by simp only [H_FIELDS]; omega)
    obtain ⟨px, hpx, hx0, hx1⟩ :=
      interpolate_x_on_screen field _ _ hd h1 hp (hcell _) hmax
    obtain ⟨py, hpy, hy0, hy1⟩ :=
      interpolate_y_on_screen field _ _ hd hy hp (hcell _) hmax
    cases hint : cy8mrln_palmpre_interpolate field (peak_scan field).max_x
        (peak_scan field).max_y with
    | none =>
      rw [hint] at hpx
      exact absurd hpx (by simp)
    | some pos =>
      rw [hint, Option.map_some', Option.some.injEq] at hpx hpy
      exact ⟨pos, rfl, by rw [hpx]; exact hx0, by rw [hpx]; exact hx1,
        by rw [hpy]; exact hy0, by rw [hpy]; exact hy1⟩

/-- C18: under a noise threshold that is not negative, the sample that
`cy8mrln_palmpre_read` emits for a frame above the threshold lies on the
screen: `0 ≤ x ≤ 319` and `0 ≤ y ≤ 527`. -/
theorem contact_sample_on_screen (info : tslib_cy8mrln_palmpre) (c : read_call)
    (hr : info.references.length = H_FIELDS * V_FIELDS)
    (hf : c.field.length = H_FIELDS * V_FIELDS)
    (hst : is_idle info ∨ is_active info) (hret : 0 < c.ret) (hnr : 0 < c.nr)
    (hnoise : 0 ≤ info.noise)
    (hgate : info.noise <
      (peak_scan (cy8mrln_palmpre_update_references info.references c.field).2).max_value) :
    ∃ r s rest, cy8mrln_palmpre_read info c = some r ∧ r.ret = 1 ∧ r.samp = s :: rest ∧
      0 ≤ s.x ∧ s.x ≤ SCREEN_WIDTH ∧ 0 ≤ s.y ∧ s.y ≤ SCREEN_HEIGHT := by
  obtain ⟨pos, hint, hx0, hx1, hy0, hy1⟩ := interpolate_peak_on_screen
    (cy8mrln_palmpre_update_references info.references c.field).2
    (update_references_spec _ _ hr hf).2.1
    (update_references_deltas_bound _ _ hr hf) (by omega)
  have h := read_contact_result info c hst hret hnr hgate
  rw [hint, Option.map_some'] at h
  exact ⟨_, _, _, h, rfl, rfl, hx0, hx1, hy0, hy1⟩

/-- Witness of C18: the touch frame read in state `idle_info`. -/
theorem contact_sample_on_screen_witness :
    ∃ r s rest, cy8mrln_palmpre_read idle_info touch_call = some r ∧ r.ret = 1 ∧
      r.samp = s :: rest ∧
      0 ≤ s.x ∧ s.x ≤ SCREEN_WIDTH ∧ 0 ≤ s.y ∧ s.y ≤ SCREEN_HEIGHT :=
  contact_sample_on_screen idle_info touch_call (by decide!) (by decide!) (Or.inl ⟨rfl, rfl⟩)
    (by decide) (by decide) (by decide) (by decide!)

/-! ## Configuration setters: claims -/

/-- The two outcomes of a device-backed setter on a handle with a device: a
rejected request leaves the structure as it was and gives -1; an accepted one
stores the value and gives 0. -/
theorem device_setter_spec (ioctl : Int → ioctl_request → Int → Int) (req : ioctl_request)
    (store : tslib_cy8mrln_palmpre → Int → tslib_cy8mrln_palmpre)
    (i : tslib_cy8mrln_palmpre) (fd v : Int) :
    (ioctl fd req v < 0 →
      device_setter ioctl req store (some i) (some fd) v
        = { info := some i, ret := -1, requests := [(req, v)] }) ∧
    (¬ ioctl fd req v < 0 →
      device_setter ioctl req store (some i) (some fd) v
        = { info := some (store i v), ret := 0, requests := [(req, v)] }) := by
  constructor
  · intro h
    simp only [device_setter, h, if_true]
  · intro h
    simp only [device_setter, h, if_false]

/-- C16: `cy8mrln_palmpre_set_wot_threshold` rejects every value outside
`[WOT_THRESHOLD_MIN, WOT_THRESHOLD_MAX]`: it returns -1, issues no
device-control request and leaves the whole configuration as it was; for a
value inside the range whose request the device accepts it returns 0 and sets
`wot_threshold` to the value, changing no other field. -/
theorem set_wot_threshold_range (WOT_THRESHOLD_MIN WOT_THRESHOLD_MAX : Int)
    (ioctl : Int → ioctl_request → Int → Int)
    (info : Option tslib_cy8mrln_palmpre) (dev : Option Int) (v : Int) :
    (v < WOT_THRESHOLD_MIN ∨ v > WOT_THRESHOLD_MAX →
      cy8mrln_palmpre_set_wot_threshold WOT_THRESHOLD_MIN WOT_THRESHOLD_MAX ioctl info dev v
        = { info := info, ret := -1, requests := [] }) ∧
    (∀ i fd, info = some i → dev = some fd →
      WOT_THRESHOLD_MIN ≤ v → v ≤ WOT_THRESHOLD_MAX →
      0 ≤ ioctl fd .CY8MRLN_IOCTL_SET_WOT_THRESHOLD v →
      cy8mrln_palmpre_set_wot_threshold WOT_THRESHOLD_MIN WOT_THRESHOLD_MAX ioctl info dev v
        = { info := some { i with wot_threshold := v }, ret := 0,
            requests := [(.CY8MRLN_IOCTL_SET_WOT_THRESHOLD, v)] }) := by
  constructor
  · intro hout
    unfold cy8mrln_palmpre_set_wot_threshold
    split
    · simp only [hout, if_true]
    · rfl
  · intro i fd hi hdev hmin hmax hok
    subst hi hdev
    have hin : ¬ (v < WOT_THRESHOLD_MIN ∨ v > WOT_THRESHOLD_MAX) := by omega
    have hok' : ¬ ioctl fd .CY8MRLN_IOCTL_SET_WOT_THRESHOLD v < 0 := by omega
    simp only [cy8mrln_palmpre_set_wot_threshold, hin, hok', if_false]

/-- Witness of C16 with the range `[0, 255]`: the value 300 is rejected
without a request, the value 22 is stored. -/
theorem set_wot_threshold_range_witness :
    cy8mrln_palmpre_set_wot_threshold 0 255 accepting_ioctl (some idle_info) (some 3) 300
      = { info := some idle_info, ret := -1, requests := [] } ∧
    cy8mrln_palmpre_set_wot_threshold 0 255 accepting_ioctl (some idle_info) (some 3) 22
      = { info := some { idle_info with wot_threshold := 22 }, ret := 0,
          requests := [(.CY8MRLN_IOCTL_SET_WOT_THRESHOLD, 22)] } :=
  ⟨(set_wot_threshold_range 0 255 accepting_ioctl (some idle_info) (some 3) 300).1
      (Or.inr (by decide)),
   (set_wot_threshold_range 0 255 accepting_ioctl (some idle_info) (some 3) 22).2
      idle_info 3 rfl rfl (by decide) (by decide) (by decide)⟩


/-- C17: for each device-backed setter (scanrate, verbose, sleepmode,
wot_scanrate, wot_threshold, timestamp_mode), with the outcome of the
device-control request as an input: when the request fails the setter returns
-1 and the whole configuration, the targeted field included, is as before;
when it succeeds exactly the targeted field changes (for timestamp_mode to
the value reduced to 0 or 1, for wot_threshold given a value in range).  The
setters of noise and ts_pressure issue no request and store the value for
every handle that is not `NULL`. -/
theorem setters_keep_or_store (WOT_THRESHOLD_MIN WOT_THRESHOLD_MAX : Int)
    (ioctl : Int → ioctl_request → Int → Int) (i : tslib_cy8mrln_palmpre) (fd v : Int) :
    ((ioctl fd .CY8MRLN_IOCTL_SET_SCANRATE v < 0 →
        cy8mrln_palmpre_set_scanrate ioctl (some i) (some fd) v
          = { info := some i, ret := -1, requests := [(.CY8MRLN_IOCTL_SET_SCANRATE, v)] }) ∧
     (¬ ioctl fd .CY8MRLN_IOCTL_SET_SCANRATE v < 0 →
        cy8mrln_palmpre_set_scanrate ioctl (some i) (some fd) v
          = { info := some { i with scanrate := v }, ret := 0,
              requests := [(.CY8MRLN_IOCTL_SET_SCANRATE, v)] })) ∧
    ((ioctl fd .CY8MRLN_IOCTL_SET_VERBOSE_MODE v < 0 →
        cy8mrln_palmpre_set_verbose ioctl (some i) (some fd) v
          = { info := some i, ret := -1,
              requests := [(.CY8MRLN_IOCTL_SET_VERBOSE_MODE, v)] }) ∧
     (¬ ioctl fd .CY8MRLN_IOCTL_SET_VERBOSE_MODE v < 0 →
        cy8mrln_palmpre_set_verbose ioctl (some i) (some fd) v
          = { info := some { i with verbose := v }, ret := 0,
              requests := [(.CY8MRLN_IOCTL_SET_VERBOSE_MODE, v)] })) ∧
    ((ioctl fd .CY8MRLN_IOCTL_SET_SLEEPMODE v < 0 →
        cy8mrln_palmpre_set_sleepmode ioctl (some i) (some fd) v
          = { info := some i, ret := -1, requests := [(.CY8MRLN_IOCTL_SET_SLEEPMODE, v)] }) ∧
     (¬ ioctl fd .CY8MRLN_IOCTL_SET_SLEEPMODE v < 0 →
        cy8mrln_palmpre_set_sleepmode ioctl (some i) (some fd) v
          = { info := some { i with sleepmode := v }, ret := 0,
              requests := [(.CY8MRLN_IOCTL_SET_SLEEPMODE, v)] })) ∧
    ((ioctl fd .CY8MRLN_IOCTL_SET_WOT_SCANRATE v < 0 →
        cy8mrln_palmpre_set_wot_scanrate ioctl (some i) (some fd) v
          = { info := some i, ret := -1,
              requests := [(.CY8MRLN_IOCTL_SET_WOT_SCANRATE, v)] }) ∧
     (¬ ioctl fd .CY8MRLN_IOCTL_SET_WOT_SCANRATE v < 0 →
        cy8mrln_palmpre_set_wot_scanrate ioctl (some i) (some fd) v
          = { info := some { i with wot_scanrate := v }, ret := 0,
              requests := [(.CY8MRLN_IOCTL_SET_WOT_SCANRATE, v)] })) ∧
    ((ioctl fd .CY8MRLN_IOCTL_SET_WOT_THRESHOLD v < 0 →
        (cy8mrln_palmpre_set_wot_threshold WOT_THRESHOLD_MIN WOT_THRESHOLD_MAX ioctl
          (some i) (some fd) v).ret = -1 ∧
        (cy8mrln_palmpre_set_wot_threshold WOT_THRESHOLD_MIN WOT_THRESHOLD_MAX ioctl
          (some i) (some fd) v).info = some i) ∧
     (WOT_THRESHOLD_MIN ≤ v → v ≤ WOT_THRESHOLD_MAX →
        ¬ ioctl fd .CY8MRLN_IOCTL_SET_WOT_THRESHOLD v < 0 →
        cy8mrln_palmpre_set_wot_threshold WOT_THRESHOLD_MIN WOT_THRESHOLD_MAX ioctl
          (some i) (some fd) v
          = { info := some { i with wot_threshold := v }, ret := 0,
              requests := [(.CY8MRLN_IOCTL_SET_WOT_THRESHOLD, v)] })) ∧
    ((ioctl fd .CY8MRLN_IOCTL_SET_TIMESTAMP_MODE (if v ≠ 0 then 1 else 0) < 0 →
        cy8mrln_palmpre_set_timestamp_mode ioctl (some i) (some fd) v
          = { info := some i, ret := -1,
              requests := [(.CY8MRLN_IOCTL_SET_TIMESTAMP_MODE, if v ≠ 0 then 1 else 0)] }) ∧
     (¬ ioctl fd .CY8MRLN_IOCTL_SET_TIMESTAMP_MODE (if v ≠ 0 then 1 else 0) < 0 →
        cy8mrln_palmpre_set_timestamp_mode ioctl (some i) (some fd) v
          = { info := some { i with timestamp_mode := if v ≠ 0 then 1 else 0 }, ret := 0,
              requests := [(.CY8MRLN_IOCTL_SET_TIMESTAMP_MODE, if v ≠ 0 then 1 else 0)] })) ∧
    cy8mrln_palmpre_set_noise (some i) v
      = { info := some { i with noise := v }, ret := 0, requests := [] } ∧
    cy8mrln_palmpre_set_ts_pressure (some i) v
      = { info := some { i with ts_pressure := v }, ret := 0, requests := [] } := by
  refine ⟨device_setter_spec ioctl _ _ i fd v, device_setter_spec ioctl _ _ i fd v,
    device_setter_spec ioctl _ _ i fd v, device_setter_spec ioctl _ _ i fd v, ⟨?_, ?_⟩,
    device_setter_spec ioctl .CY8MRLN_IOCTL_SET_TIMESTAMP_MODE
      (fun i v => { i with timestamp_mode := v }) i fd (if v ≠ 0 then 1 else 0), rfl, rfl⟩
  · intro hfail
    by_cases hout : v < WOT_THRESHOLD_MIN ∨ v > WOT_THRESHOLD_MAX
    · simp only [cy8mrln_palmpre_set_wot_threshold, hout, if_true, and_self]
    · simp only [cy8mrln_palmpre_set_wot_threshold, hout, hfail, if_true, if_false, and_self]
  · intro hmin hmax hok
    have hin : ¬ (v < WOT_THRESHOLD_MIN ∨ v > WOT_THRESHOLD_MAX) := by omega
    simp only [cy8mrln_palmpre_set_wot_threshold, hin, hok, if_false]

/-- A rejected and an accepted request of the scan-rate setter on `idle_info`. -/
theorem setters_keep_or_store_witness :
    cy8mrln_palmpre_set_scanrate rejecting_ioctl (some idle_info) (some 3) 120
      = { info := some idle_info, ret := -1,
          requests := [(.CY8MRLN_IOCTL_SET_SCANRATE, 120)] } ∧
    cy8mrln_palmpre_set_scanrate accepting_ioctl (some idle_info) (some 3) 120
      = { info := some { idle_info with scanrate := 120 }, ret := 0,
          requests := [(.CY8MRLN_IOCTL_SET_SCANRATE, 120)] } :=
  ⟨(setters_keep_or_store 0 255 rejecting_ioctl idle_info 3 120).1.1 (by decide),
   (setters_keep_or_store 0 255 accepting_ioctl idle_info 3 120).1.2 (by decide)⟩


end Cy8mrln
